import Mathlib

/-!
A shallow embedding of the in-memory time-series backend
(`src/sentry/tsdb/inmemory.py`, class `InMemoryTSDB`).

Python dictionaries are embedded as association lists in insertion order;
`defaultdict` reads that materialize missing entries are embedded as
operations that return both a value and the updated mapping.  Counter values
are `Int`, set-store values are `Finset Nat`, frequency tables map members to
`Rat` scores (exact stand-in for Python floats; the claims under study do not
depend on rounding).  Wall-clock defaults (`timestamp=None` meaning "now")
are embedded by making the timestamp argument explicit.

The rollup schedule and the epoch helpers live in `sentry/tsdb/base.py`,
which is not part of the provided sources; those are modelled from the spec
(each such definition carries a doc comment saying so).
-/

namespace TSDBSpec

/-- Lookup in an insertion-ordered association list: the value at the first
occurrence of the key, as in a Python dict. -/
def lookupL {κ α : Type} [DecidableEq κ] : List (κ × α) → κ → Option α
  | [], _ => none
  | p :: rest, k => if p.1 = k then some p.2 else lookupL rest k

/-- Python dict assignment `d[k] = v`: replace the value at the first
occurrence of the key in place, or append a fresh entry at the end. -/
def setL {κ α : Type} [DecidableEq κ] : List (κ × α) → κ → α → List (κ × α)
  | [], k, v => [(k, v)]
  | p :: rest, k, v => if p.1 = k then (k, v) :: rest else p :: setL rest k v

/-- Python `d.pop(k, default)` restricted to its effect on the mapping:
remove the first occurrence of the key (a no-op when absent). -/
def popL {κ α : Type} [DecidableEq κ] : List (κ × α) → κ → List (κ × α)
  | [], _ => []
  | p :: rest, k => if p.1 = k then rest else p :: popL rest k

/-- Python `defaultdict` item access `d[k]`: return the stored value, or
insert the default and return it. The second component is the mapping after
the access. -/
def getdL {κ α : Type} [DecidableEq κ] (l : List (κ × α)) (k : κ) (d : α) :
    α × List (κ × α) :=
  match lookupL l k with
  | some v => (v, l)
  | none => (d, l ++ [(k, d)])

/-- Environment dimension: `some e` is a concrete environment id, `none` is
the aggregate-environment sentinel (Python `None`). -/
abbrev EnvId := Option Nat

/-- The key of the middle mapping level: `(key, environment_id)`. -/
abbrev BKey := Nat × EnvId

/-- One store of the backend: model -> (key, environment) -> epoch -> value,
with every level insertion-ordered as in the Python nested defaultdicts. -/
abbrev Store (v : Type) := List (Nat × List (BKey × List (Nat × v)))

/-- The middle mapping level of a store. -/
abbrev Mid (v : Type) := List (BKey × List (Nat × v))

set_option synthInstance.maxSize 4000 in
instance midDecEq {v : Type} [DecidableEq v] : DecidableEq (Mid v) :=
  inferInstance

set_option synthInstance.maxSize 4000 in
instance storeDecEq {v : Type} [DecidableEq v] : DecidableEq (Store v) :=
  inferInstance

/-- Pure (non-materializing) view of a store value, with the innermost
default for missing coordinates. -/
def storeGet {v : Type} (dflt : v) (s : Store v) (model : Nat) (ke : BKey)
    (ep : Nat) : v :=
  (lookupL ((lookupL ((lookupL s model).getD []) ke).getD []) ep).getD dflt

/-- The chained defaultdict write `s[model][(key, env)][ep] = f old`:
materializes every level, applies `f` to the stored (or default) innermost
value. -/
def storeUpd {v : Type} (dflt : v) (f : v → v) (s : Store v) (model : Nat)
    (ke : BKey) (ep : Nat) : Store v :=
  let mid := (lookupL s model).getD []
  let tab := (lookupL mid ke).getD []
  let r := getdL tab ep dflt
  setL s model (setL mid ke (setL r.2 ep (f r.1)))

/-- The chained defaultdict read `s[model][(key, env)][ep]`: returns the
stored (or default) value together with the store after materialization. -/
def storeRead {v : Type} (dflt : v) (s : Store v) (model : Nat) (ke : BKey)
    (ep : Nat) : v × Store v :=
  (storeGet dflt s model ke ep, storeUpd dflt id s model ke ep)

/-- The middle mapping a model is bound to (empty when unmaterialized). -/
def midOf {v : Type} (s : Store v) (model : Nat) : Mid v :=
  (lookupL s model).getD []

/-- The middle-level defaultdict access `s[model][(key, env)]` alone
(`source = self.sets[model][(key, environment_id)]`): materializes the model
and middle entries. -/
def materializeMid {v : Type} (s : Store v) (model : Nat) (ke : BKey) :
    Store v :=
  setL s model (getdL ((lookupL s model).getD []) ke []).2

/-- Modelled from the spec: the Epoch Normalizer of `sentry/tsdb/base.py` is
not in the provided sources; per §3, "Epoch = floor(timestamp_seconds /
granularity_seconds) * granularity_seconds". -/
def bucket_epoch (ts g : Nat) : Nat := ts / g * g

/-- Modelled from the spec: per §4.1, the ordered sequence of bucket epochs
of granularity `g` whose buckets cover some timestamp in `[start, stop)`. -/
def seriesEpochs (g start stop : Nat) : List Nat :=
  if g = 0 ∨ stop ≤ start then []
  else (List.range ((stop - start / g * g + g - 1) / g)).map
    (fun i => start / g * g + i * g)

/-- Modelled from the spec: per §4.1, choose the finest granularity in the
schedule whose retention window covers the requested range, falling back to
the coarsest available granularity. -/
def get_optimal_rollup (rollups : List (Nat × Nat)) (start stop : Nat) :
    Nat :=
  match rollups.find? (fun p => decide (stop - start ≤ p.1 * p.2)) with
  | some p => p.1
  | none => (rollups.getLast?.map Prod.fst).getD 0

/-- Modelled from the spec: per §4.1 `select_rollup`, use the requested
granularity when given, otherwise the optimal one, and enumerate the bucket
epochs of `[start, stop)`. -/
def get_optimal_rollup_series (rollups : List (Nat × Nat))
    (start stop : Nat) (rollup : Option Nat) : Nat × List Nat :=
  let g := rollup.getD (get_optimal_rollup rollups start stop)
  (g, seriesEpochs g start stop)

/-- Modelled from the spec: per §4.1 `active_series`, for every granularity
in the schedule, the bucket epochs overlapping the given range, or the
single instant `timestamp` when no range is given. -/
def get_active_series (rollups : List (Nat × Nat)) (start stop : Option Nat)
    (timestamp : Nat) : List (Nat × List Nat) :=
  rollups.map (fun p => (p.1,
    match start, stop with
    | some s, some e => seriesEpochs p.1 s e
    | _, _ => seriesEpochs p.1 timestamp (timestamp + 1)))

/-- The in-memory backend state: the rollup schedule (granularity seconds,
retained bucket count) and the three nested stores set up by `flush`. -/
structure InMemoryTSDB where
  rollups : List (Nat × Nat)
  data : Store Int
  sets : Store (Finset Nat)
  frequencies : Store (List (Nat × Rat))
deriving DecidableEq

/-- `flush`: reset the three stores to empty nested defaultdicts. -/
def flush (t : InMemoryTSDB) : InMemoryTSDB :=
  { t with data := [], sets := [], frequencies := [] }

/-- `__init__`: store the rollup schedule and `flush`. -/
def initTSDB (rollups : List (Nat × Nat)) : InMemoryTSDB :=
  flush { rollups := rollups, data := [], sets := [], frequencies := [] }

/-- The Python set `set([environment_id, None])` built by the write
operations: just the aggregate when no environment is given. -/
def writeEnvs (env : EnvId) : List EnvId :=
  match env with
  | none => [none]
  | some e => [some e, none]

/-- The Python set `set(environment_ids) | {None}` built by the merge and
delete operations, as a duplicate-free list. -/
def envIdSet (ids : Option (List Nat)) : List EnvId :=
  match ids with
  | none => [none]
  | some l => (l.map some).dedup ++ [none]

/-- `incr`: for every rollup, for the concrete and the aggregate
environment, add `count` into `self.data[model][(key, env)][norm_epoch]`. -/
def incr (t : InMemoryTSDB) (model key timestamp : Nat) (count : Int)
    (env : EnvId) : InMemoryTSDB :=
  let d := t.rollups.foldl (fun s p =>
    (writeEnvs env).foldl
      (fun s e => storeUpd 0 (· + count) s model (key, e)
        (bucket_epoch timestamp p.1)) s) t.data
  { t with data := d }

/-- `record`: for every rollup, for the concrete and the aggregate
environment, union `values` into `self.sets[model][(key, env)][r]`. -/
def record (t : InMemoryTSDB) (model key : Nat) (values : Finset Nat)
    (timestamp : Nat) (env : EnvId) : InMemoryTSDB :=
  let d := t.rollups.foldl (fun s p =>
    (writeEnvs env).foldl
      (fun s e => storeUpd ∅ (· ∪ values) s model (key, e)
        (bucket_epoch timestamp p.1)) s) t.sets
  { t with sets := d }

/-- `Counter.update(items)`: add each item score onto the stored score,
materializing missing members at 0. -/
def ctrUpdate (c : List (Nat × Rat)) (items : List (Nat × Rat)) :
    List (Nat × Rat) :=
  items.foldl (fun c2 p =>
    let r := getdL c2 p.1 0
    setL r.2 p.1 (r.1 + p.2)) c

/-- `record_frequency_multi`: for each `(model, {key: {member: score}})`
request, for the concrete and the aggregate environment, for every rollup,
`source[norm_epoch].update(items)` on the frequency store. -/
def record_frequency_multi (t : InMemoryTSDB)
    (requests : List (Nat × List (Nat × List (Nat × Rat))))
    (timestamp : Nat) (env : EnvId) : InMemoryTSDB :=
  let d := requests.foldl (fun s req =>
    req.2.foldl (fun s kv =>
      (writeEnvs env).foldl (fun s e =>
        t.rollups.foldl
          (fun s p => storeUpd [] (fun c => ctrUpdate c kv.2) s req.1
            (kv.1, e) (bucket_epoch timestamp p.1)) s) s) s) t.frequencies
  { t with frequencies := d }

/-- The bucket-by-bucket accumulation of a popped source table into the
destination table reference (`destination[bucket] += count`, resp.
`destination[bucket].update(values)`). -/
def tabMergeInto {v : Type} (dflt : v) (comb : v → v → v)
    (dtab ptab : List (Nat × v)) : List (Nat × v) :=
  ptab.foldl (fun d p =>
    let r := getdL d p.1 dflt
    setL r.2 p.1 (comb r.1 p.2)) dtab

/-- The merge body for a single environment id.  `destination` in the Python
code is a live reference into the middle mapping: popping the destination
key itself (a self-merge) detaches that reference, so later accumulation
never reaches the store and the destination entry stays removed.  The
`Bool` component tracks whether the reference is still attached. -/
def midMerge {v : Type} (dflt : v) (comb : v → v → v) (mid : Mid v)
    (dest : Nat) (sources : List Nat) (env : EnvId) : Mid v :=
  let r0 := getdL mid (dest, env) []
  let r := sources.foldl (fun (st : Mid v × List (Nat × v) × Bool) source =>
      match lookupL st.1 (source, env) with
      | none => st
      | some ptab =>
          (popL st.1 (source, env), tabMergeInto dflt comb st.2.1 ptab,
            st.2.2 && !(decide (source = dest))))
    (r0.2, r0.1, true)
  if r.2.2 then setL r.1 (dest, env) r.2.1 else r.1

/-- `merge` on the counter store.  The Python loop rebinds the variable
`destination` to the inner bucket mapping on its first iteration; a second
environment iteration then indexes `self.data[model]` with a tuple holding
that (unhashable) mapping and raises `TypeError`, embedded as `.error`. -/
def merge (t : InMemoryTSDB) (model dest : Nat) (sources : List Nat)
    (ids : Option (List Nat)) : Except Unit InMemoryTSDB :=
  match envIdSet ids with
  | [] => .ok t
  | env :: rest =>
    let mid := (lookupL t.data model).getD []
    let d := setL t.data model (midMerge 0 (· + ·) mid dest sources env)
    let t2 := { t with data := d }
    if rest.isEmpty then .ok t2 else .error ()

/-- `merge_distinct_counts`: same shape as `merge`, on the set store, with
bucket union, including the `destination` rebinding of the Python loop. -/
def merge_distinct_counts (t : InMemoryTSDB) (model dest : Nat)
    (sources : List Nat) (ids : Option (List Nat)) :
    Except Unit InMemoryTSDB :=
  match envIdSet ids with
  | [] => .ok t
  | env :: rest =>
    let mid := (lookupL t.sets model).getD []
    let d := setL t.sets model (midMerge ∅ (· ∪ ·) mid dest sources env)
    let t2 := { t with sets := d }
    if rest.isEmpty then .ok t2 else .error ()

/-- `merge_frequencies`: the Python body pops source buckets from
`self.data` (the counter store), not from `self.frequencies`, and then
calls `Counter.update` on each popped integer count, which raises
`TypeError` unless the popped bucket mapping is empty; the destination
frequency entry is merely materialized. -/
def merge_frequencies (t : InMemoryTSDB) (model dest : Nat)
    (sources : List Nat) (ids : Option (List Nat)) :
    Except Unit InMemoryTSDB :=
  match envIdSet ids with
  | [] => .ok t
  | env :: rest =>
    let fmid := (lookupL t.frequencies model).getD []
    let fr := getdL fmid (dest, env) []
    let dmid := (lookupL t.data model).getD []
    let popped := sources.foldl (fun (acc : Except Unit (Mid Int)) source =>
        match acc with
        | .error e => .error e
        | .ok dm =>
          match lookupL dm (source, env) with
          | none => .ok dm
          | some ptab =>
            if ptab.isEmpty then .ok (popL dm (source, env)) else .error ())
      (.ok dmid)
    match popped with
    | .error e => .error e
    | .ok dm =>
      let d := setL t.data model dm
      let f := setL t.frequencies model (setL fr.2 (dest, env) fr.1)
      let t2 := { t with data := d, frequencies := f }
      if rest.isEmpty then .ok t2 else .error ()

/-- The per-(granularity, series) inner body of `delete`:
`data = self.data[model][(key, env)]` (materializing), then pop every
normalized series timestamp from it. -/
def popEpochs {v : Type} (g : Nat) (series : List Nat) (mid : Mid v)
    (ke : BKey) : Mid v :=
  let r := getdL mid ke []
  setL r.2 ke (series.foldl (fun tab ts => popL tab (bucket_epoch ts g)) r.1)

/-- `delete` on the counter store: for every active (granularity, series)
pair, every model, key, and environment id in the given set plus the
aggregate, pop the covered buckets. -/
def delete (t : InMemoryTSDB) (models keys : List Nat)
    (start stop : Option Nat) (timestamp : Nat) (ids : Option (List Nat)) :
    InMemoryTSDB :=
  let d := (get_active_series t.rollups start stop timestamp).foldl
    (fun s gp => models.foldl (fun s model => keys.foldl (fun s key =>
      (envIdSet ids).foldl
        (fun s env => setL s model
          (popEpochs gp.1 gp.2 (midOf s model) (key, env)))
        s) s) s) t.data
  { t with data := d }

/-- `delete_distinct_counts`: the Python body is identical to `delete` and
also operates on `self.data` (the counter store), leaving `self.sets`
untouched. -/
def delete_distinct_counts (t : InMemoryTSDB) (models keys : List Nat)
    (start stop : Option Nat) (timestamp : Nat) (ids : Option (List Nat)) :
    InMemoryTSDB :=
  let d := (get_active_series t.rollups start stop timestamp).foldl
    (fun s gp => models.foldl (fun s model => keys.foldl (fun s key =>
      (envIdSet ids).foldl
        (fun s env => setL s model
          (popEpochs gp.1 gp.2 (midOf s model) (key, env)))
        s) s) s) t.data
  { t with data := d }

/-- Python `sorted` on the `(epoch, count)` items of a per-key dict (the
epochs are distinct, so tuple comparison is comparison on the epoch). -/
def sortPairs (l : List (Nat × Int)) : List (Nat × Int) :=
  l.insertionSort (fun a b => a.1 ≤ b.1)

/-- One key's materializing read inside the `get_range` loop: append the
`(epoch, key, value)` triple and keep the updated store. -/
def rangeStep (model : Nat) (env : EnvId) (ep : Nat)
    (acc : List (Nat × Nat × Int) × Store Int) (key : Nat) :
    List (Nat × Nat × Int) × Store Int :=
  let r := storeRead 0 acc.2 model (key, env) ep
  (acc.1 ++ [(ep, key, r.1)], r.2)

/-- One step of the `results_by_key` grouping loop of `get_range`:
`results_by_key[key][epoch] = count`. -/
def groupStep (rb : List (Nat × List (Nat × Int)))
    (tr : Nat × Nat × Int) : List (Nat × List (Nat × Int)) :=
  let r := getdL rb tr.2.1 []
  setL r.2 tr.2.1 (setL r.1 tr.1 tr.2.2)

/-- `get_range`: select the rollup and series, read (materializing) each
key's bucket at each epoch into a flat `(epoch, key, value)` list, group it
into a per-key dict, and sort each key's items by epoch.  `int(count or 0)`
is the identity on the integer counts and is dropped. -/
def get_range (t : InMemoryTSDB) (model : Nat) (keys : List Nat)
    (start stop : Nat) (rollup : Option Nat) (env : EnvId) :
    List (Nat × List (Nat × Int)) × InMemoryTSDB :=
  let gs := get_optimal_rollup_series t.rollups start stop rollup
  let step := gs.2.foldl (fun (acc : List (Nat × Nat × Int) × Store Int) ts =>
      keys.foldl (rangeStep model env (bucket_epoch ts gs.1)) acc)
    ([], t.data)
  let grouped := step.1.foldl groupStep []
  let d := step.2
  (grouped.map (fun p => (p.1, sortPairs p.2)), { t with data := d })

/-- One series timestamp's materializing read inside
`get_distinct_counts_series`: append `(timestamp, len(source[r]))` and keep
the updated store. -/
def dcsStep (model key : Nat) (env : EnvId) (g : Nat)
    (acc : List (Nat × Nat) × Store (Finset Nat)) (ts : Nat) :
    List (Nat × Nat) × Store (Finset Nat) :=
  let rd := storeRead ∅ acc.2 model (key, env) (bucket_epoch ts g)
  (acc.1 ++ [(ts, rd.1.card)], rd.2)

/-- `get_distinct_counts_series`: for each key, materialize the middle
entry, then append `(timestamp, len(source[r]))` per series timestamp. -/
def get_distinct_counts_series (t : InMemoryTSDB) (model : Nat)
    (keys : List Nat) (start stop : Nat) (rollup : Option Nat)
    (env : EnvId) : List (Nat × List (Nat × Nat)) × InMemoryTSDB :=
  let gs := get_optimal_rollup_series t.rollups start stop rollup
  let r := keys.foldl
    (fun (acc : List (Nat × List (Nat × Nat)) × Store (Finset Nat)) key =>
      let inner := gs.2.foldl (dcsStep model key env gs.1)
        ([], materializeMid acc.2 model (key, env))
      (setL acc.1 key inner.1, inner.2)) ([], t.sets)
  let d := r.2
  (r.1, { t with sets := d })

/-- `Counter.most_common(limit)`: the members sorted by descending score,
truncated to `limit` when one is given. -/
def most_common (c : List (Nat × Rat)) (limit : Option Nat) :
    List (Nat × Rat) :=
  let sorted := c.insertionSort (fun a b => b.2 ≤ a.2)
  match limit with
  | none => sorted
  | some n => sorted.take n

/-- One series timestamp's materializing read inside `get_most_frequent`:
`result.update(source[norm_epoch])`, keeping the updated store. -/
def gmfStep (model key : Nat) (env : EnvId) (g : Nat)
    (acc : List (Nat × Rat) × Store (List (Nat × Rat))) (ts : Nat) :
    List (Nat × Rat) × Store (List (Nat × Rat)) :=
  let rd := storeRead [] acc.2 model (key, env) (bucket_epoch ts g)
  (ctrUpdate acc.1 rd.1, rd.2)

/-- `get_most_frequent`: for each key, materialize the middle entry,
accumulate every series bucket's counter into one counter (materializing
reads), and return its `most_common(limit)`. -/
def get_most_frequent (t : InMemoryTSDB) (model : Nat) (keys : List Nat)
    (start stop : Nat) (rollup limit : Option Nat) (env : EnvId) :
    List (Nat × List (Nat × Rat)) × InMemoryTSDB :=
  let gs := get_optimal_rollup_series t.rollups start stop rollup
  let r := keys.foldl
    (fun (acc : List (Nat × List (Nat × Rat)) × Store (List (Nat × Rat)))
        key =>
      let inner := gs.2.foldl (gmfStep model key env gs.1)
        ([], materializeMid acc.2 model (key, env))
      (setL acc.1 key (most_common inner.1 limit), inner.2))
    ([], t.frequencies)
  let d := r.2
  (r.1, { t with frequencies := d })

/-- Duplicate-free keys at one association-list level. -/
def KeysNodup {κ α : Type} (l : List (κ × α)) : Prop :=
  (l.map Prod.fst).Nodup

instance {κ α : Type} [DecidableEq κ] (l : List (κ × α)) :
    Decidable (KeysNodup l) := by
  unfold KeysNodup; infer_instance

/-- Every innermost bucket table of a store has duplicate-free epoch keys
(true of every state the backend itself builds). -/
def TabsNodup {v : Type} (s : Store v) : Prop :=
  ∀ p ∈ s, ∀ q ∈ p.2, KeysNodup q.2

instance {v : Type} (s : Store v) : Decidable (TabsNodup s) := by
  unfold TabsNodup; infer_instance

/-- The concrete environment ids that hold an entry for `key` in a middle
mapping. -/
def envsOfMid {v : Type} (mid : Mid v) (key : Nat) : Finset Nat :=
  ((mid.map Prod.fst).filterMap
    (fun ke => if ke.1 = key then ke.2 else none)).toFinset

/-- The bucket value of one concrete environment, read through a middle
mapping. -/
def envVal {v : Type} (dflt : v) (mid : Mid v) (key e ep : Nat) : v :=
  (lookupL ((lookupL mid (key, some e)).getD []) ep).getD dflt

/-- Sum over all concrete environments of the counter bucket at one
coordinate. -/
def envSumC (mid : Mid Int) (key ep : Nat) : Int :=
  ∑ e ∈ envsOfMid mid key, envVal 0 mid key e ep

/-- Union over all concrete environments of the set bucket at one
coordinate. -/
def envUnionS (mid : Mid (Finset Nat)) (key ep : Nat) : Finset Nat :=
  (envsOfMid mid key).sup (fun e => envVal ∅ mid key e ep)

/-- Sum over all concrete environments of one member's frequency score at
one coordinate. -/
def envSumF (mid : Mid (List (Nat × Rat))) (key ep member : Nat) : Rat :=
  ∑ e ∈ envsOfMid mid key, (lookupL (envVal [] mid key e ep) member).getD 0

/-- One member's score in one frequency bucket. -/
def freqVal (s : Store (List (Nat × Rat))) (m : Nat) (ke : BKey)
    (ep mem : Nat) : Rat :=
  (lookupL (storeGet [] s m ke ep) mem).getD 0

/-- The total score an update mapping contributes to one member
(`Counter.update` adds this much to the member's stored score). -/
def itemsTotal (items : List (Nat × Rat)) (mem : Nat) : Rat :=
  ((items.filter (fun p => decide (p.1 = mem))).map Prod.snd).sum

/-- How many granularities of the schedule map the timestamp to the given
epoch (distinct rollups of the in-memory backend share one epoch-keyed
bucket dict, so colliding granularities accumulate multiply). -/
def rollTotal (rollups : List (Nat × Nat)) (ts ep : Nat) : Nat :=
  (rollups.filter (fun p => decide (bucket_epoch ts p.1 = ep))).length

/-- Counter half of the dual-write invariant: every aggregate bucket equals
the sum of the environment-specific buckets at the same coordinate. -/
def counterInv (d : Store Int) : Prop :=
  ∀ model key ep,
    storeGet 0 d model (key, none) ep = envSumC (midOf d model) key ep

/-- Set half of the dual-write invariant: every aggregate set bucket equals
the union of the environment-specific buckets at the same coordinate. -/
def setInv (d : Store (Finset Nat)) : Prop :=
  ∀ model key ep,
    storeGet ∅ d model (key, none) ep = envUnionS (midOf d model) key ep

/-- Frequency half of the dual-write invariant: every member's aggregate
score equals the sum of its environment-specific scores at the same
coordinate. -/
def freqInv (d : Store (List (Nat × Rat))) : Prop :=
  ∀ model key ep mem,
    freqVal d model (key, none) ep mem = envSumF (midOf d model) key ep mem

/-- The dual-write aggregate invariant: at every coordinate, the
aggregate-environment bucket equals the sum (counters), union (sets), or
per-member score sum (frequencies) of all environment-specific buckets. -/
def aggInvariant (t : InMemoryTSDB) : Prop :=
  counterInv t.data ∧ setInv t.sets ∧ freqInv t.frequencies

/-- One write operation carrying a concrete environment id. -/
inductive WOp where
  | incrOp (model key timestamp : Nat) (count : Int) (env : Nat)
  | recordOp (model key : Nat) (values : Finset Nat) (timestamp : Nat)
      (env : Nat)
  | freqOp (requests : List (Nat × List (Nat × List (Nat × Rat))))
      (timestamp : Nat) (env : Nat)

/-- Apply one environment-scoped write to the backend. -/
def applyOp (t : InMemoryTSDB) : WOp → InMemoryTSDB
  | .incrOp m k ts c e => incr t m k ts c (some e)
  | .recordOp m k v ts e => record t m k v ts (some e)
  | .freqOp reqs ts e => record_frequency_multi t reqs ts (some e)

/-- Apply a sequence of environment-scoped writes to the backend. -/
def applyOps (t : InMemoryTSDB) (ops : List WOp) : InMemoryTSDB :=
  ops.foldl applyOp t

/-- An epoch covered by the active series of some granularity (the bucket
coordinates `delete` pops). -/
def epochTargeted (active : List (Nat × List Nat)) (ep : Nat) : Prop :=
  ∃ p ∈ active, ∃ ts ∈ p.2, bucket_epoch ts p.1 = ep

instance (active : List (Nat × List Nat)) (ep : Nat) :
    Decidable (epochTargeted active ep) := by
  unfold epochTargeted; infer_instance

/-- The per-key `(epoch, count)` sequence `get_range` is specified to
return: one pair per series epoch, reading the original store (missing
buckets read 0). -/
def rangeRead (s : Store Int) (model key : Nat) (env : EnvId) (g : Nat)
    (series : List Nat) : List (Nat × Int) :=
  series.map (fun ts =>
    (bucket_epoch ts g, storeGet 0 s model (key, env) (bucket_epoch ts g)))

/-- The pure per-key accumulation `get_most_frequent` performs over the
series buckets of the frequency store. -/
def accFreq (s : Store (List (Nat × Rat))) (model key : Nat) (env : EnvId)
    (g : Nat) (series : List Nat) : List (Nat × Rat) :=
  series.foldl
    (fun c ts => ctrUpdate c (storeGet [] s model (key, env)
      (bucket_epoch ts g))) []

instance : IsTotal (Nat × Rat) (fun a b => b.2 ≤ a.2) :=
  ⟨fun a b => le_total b.2 a.2⟩

instance : IsTrans (Nat × Rat) (fun a b => b.2 ≤ a.2) :=
  ⟨fun _ _ _ h1 h2 => le_trans h2 h1⟩

instance : IsTotal (Nat × Int) (fun a b => a.1 ≤ b.1) :=
  ⟨fun a b => le_total a.1 b.1⟩

instance : IsTrans (Nat × Int) (fun a b => a.1 ≤ b.1) :=
  ⟨fun _ _ _ h1 h2 => le_trans h1 h2⟩

/-- A middle-level entry (a `(key, environment)` bucket dict) exists in the
backing store. -/
def hasMidEntry {v : Type} (s : Store v) (m : Nat) (ke : BKey) : Prop :=
  (lookupL (midOf s m) ke).isSome = true

instance {v : Type} (s : Store v) (m : Nat) (ke : BKey) :
    Decidable (hasMidEntry s m ke) := by
  unfold hasMidEntry; infer_instance

/-- An innermost entry (an epoch binding inside a bucket dict) exists in the
backing store. -/
def hasTabEntry {v : Type} (s : Store v) (m : Nat) (ke : BKey) (ep : Nat) :
    Prop :=
  (lookupL ((lookupL (midOf s m) ke).getD []) ep).isSome = true

instance {v : Type} (s : Store v) (m : Nat) (ke : BKey) (ep : Nat) :
    Decidable (hasTabEntry s m ke ep) := by
  unfold hasTabEntry; infer_instance

/-- The store-only effect of the `get_range` read loop: one materializing
read per series epoch per key. -/
def rangeStoreFold (d : Store Int) (model : Nat) (keys : List Nat)
    (env : EnvId) (g : Nat) (series : List Nat) : Store Int :=
  series.foldl (fun st ts =>
    keys.foldl (fun st key =>
      storeUpd 0 id st model (key, env) (bucket_epoch ts g)) st) d

/-- The store-only effect of one key's series loop in the set/frequency
read operations. -/
def seriesStoreFold {v : Type} (dflt : v) (d : Store v) (model key : Nat)
    (env : EnvId) (g : Nat) (series : List Nat) : Store v :=
  series.foldl (fun st ts =>
    storeUpd dflt id st model (key, env) (bucket_epoch ts g)) d

/-- The store-only effect of the per-key loops of
`get_distinct_counts_series` and `get_most_frequent`: materialize the
middle entry, then one materializing read per series epoch. -/
def keysStoreFold {v : Type} (dflt : v) (d : Store v) (model : Nat)
    (keys : List Nat) (env : EnvId) (g : Nat) (series : List Nat) :
    Store v :=
  keys.foldl (fun st key =>
    seriesStoreFold dflt (materializeMid st model (key, env)) model key env
      g series) d

/-- The flat `(epoch, key, value)` triple list `get_range` builds, with
every value read from the initial store (materializing reads never change
the value seen at any coordinate). -/
def rangeTriples (d : Store Int) (model : Nat) (keys : List Nat)
    (env : EnvId) (g : Nat) : List Nat → List (Nat × Nat × Int)
  | [] => []
  | ts :: rest =>
      keys.map (fun k => (bucket_epoch ts g, k,
          storeGet 0 d model (k, env) (bucket_epoch ts g)))
        ++ rangeTriples d model keys env g rest

theorem lookupL_append {κ α : Type} [DecidableEq κ] (l m : List (κ × α))
    (k : κ) :
    lookupL (l ++ m) k =
      match lookupL l k with
      | some v => some v
      | none => lookupL m k := by
  induction l with
  | nil => simp [lookupL]
  | cons p rest ih => by_cases h : p.1 = k <;> simp [lookupL, h, ih]

theorem lookupL_setL {κ α : Type} [DecidableEq κ] (l : List (κ × α))
    (k q : κ) (v : α) :
    lookupL (setL l k v) q = if q = k then some v else lookupL l q := by
  induction l with
  | nil =>
      simp only [setL, lookupL]
      by_cases h : q = k
      · simp [h]
      · rw [if_neg (fun hh => h hh.symm), if_neg h]
  | cons p rest ih =>
      simp only [setL]
      by_cases hp : p.1 = k
      · rw [if_pos hp]
        simp only [lookupL]
        by_cases h : q = k
        · simp [h]
        · rw [if_neg (fun hh => h hh.symm), if_neg h,
            if_neg (fun hh => h (hp ▸ hh).symm)]
      · rw [if_neg hp]
        simp only [lookupL, ih]
        by_cases hq : p.1 = q
        · rw [if_pos hq, if_pos hq,
            if_neg (fun hh : q = k => hp (hq.trans hh))]
        · rw [if_neg hq, if_neg hq]

theorem lookupL_eq_none_iff {κ α : Type} [DecidableEq κ]
    (l : List (κ × α)) (k : κ) :
    lookupL l k = none ↔ k ∉ l.map Prod.fst := by
  induction l with
  | nil => simp [lookupL]
  | cons p rest ih =>
      by_cases h : p.1 = k
      · simp [lookupL, h]
      · simp only [lookupL, if_neg h, List.map_cons, List.mem_cons, ih]
        constructor
        · intro hn hmem
          rcases hmem with hmem | hmem
          · exact h hmem.symm
          · exact hn hmem
        · intro hn hmem
          exact hn (Or.inr hmem)

theorem getdL_fst {κ α : Type} [DecidableEq κ] (l : List (κ × α)) (k : κ)
    (d : α) : (getdL l k d).1 = (lookupL l k).getD d := by
  cases h : lookupL l k <;> simp [getdL, h]

theorem lookupL_getdL {κ α : Type} [DecidableEq κ] (l : List (κ × α))
    (k q : κ) (d : α) :
    lookupL (getdL l k d).2 q =
      if q = k then some ((lookupL l k).getD d) else lookupL l q := by
  cases h : lookupL l k with
  | some v =>
      simp only [getdL, h]
      by_cases hq : q = k
      · simp [hq, h]
      · simp [hq]
  | none =>
      simp only [getdL, h, lookupL_append]
      by_cases hq : q = k
      · subst hq; simp [h, lookupL]
      · cases hl : lookupL l q
        · simp only [lookupL]
          rw [if_neg (fun hh : k = q => hq hh.symm), if_neg hq]
        · rw [if_neg hq]

theorem popL_map_fst_sublist {κ α : Type} [DecidableEq κ]
    (l : List (κ × α)) (k : κ) :
    ((popL l k).map Prod.fst).Sublist (l.map Prod.fst) := by
  induction l with
  | nil => simp [popL]
  | cons p rest ih =>
      by_cases h : p.1 = k
      · simp only [popL, if_pos h, List.map_cons]
        exact (List.sublist_cons_self _ _)
      · simp only [popL, if_neg h, List.map_cons]
        exact ih.cons₂ _

theorem KeysNodup_popL {κ α : Type} [DecidableEq κ] (l : List (κ × α))
    (k : κ) (h : KeysNodup l) : KeysNodup (popL l k) :=
  List.Nodup.sublist (popL_map_fst_sublist l k) h

theorem lookupL_popL {κ α : Type} [DecidableEq κ] (l : List (κ × α))
    (k q : κ) (h : KeysNodup l) :
    lookupL (popL l k) q = if q = k then none else lookupL l q := by
  induction l with
  | nil => simp [popL, lookupL]
  | cons p rest ih =>
      have hrest : KeysNodup rest := (List.nodup_cons.mp h).2
      have hnotin : p.1 ∉ rest.map Prod.fst := (List.nodup_cons.mp h).1
      by_cases hp : p.1 = k
      · rw [popL, if_pos hp]
        by_cases hq : q = k
        · rw [if_pos hq]
          rw [lookupL_eq_none_iff]
          intro hmem
          exact hnotin (by rw [hp, ← hq]; exact hmem)
        · rw [if_neg hq, lookupL,
            if_neg (fun hh : p.1 = q => hq (hh.symm.trans hp))]

      · rw [popL, if_neg hp]
        by_cases hq : q = k
        · rw [if_pos hq, lookupL,
            if_neg (fun hh : p.1 = q => hp (hh.trans hq)), ih hrest,
            if_pos hq]
        · rw [if_neg hq, lookupL, lookupL, ih hrest, if_neg hq]

theorem map_fst_setL {κ α : Type} [DecidableEq κ] (l : List (κ × α))
    (k : κ) (v : α) :
    (setL l k v).map Prod.fst =
      if k ∈ l.map Prod.fst then l.map Prod.fst
      else l.map Prod.fst ++ [k] := by
  induction l with
  | nil => simp [setL]
  | cons p rest ih =>
      by_cases hp : p.1 = k
      · rw [setL, if_pos hp, List.map_cons, List.map_cons,
          if_pos (by simp [hp])]
        rw [hp]
      · rw [setL, if_neg hp, List.map_cons, List.map_cons, ih]
        have hcond : k ∈ p.1 :: rest.map Prod.fst ↔
            k ∈ rest.map Prod.fst := by
          rw [List.mem_cons]
          constructor
          · rintro (hh | hh)
            · exact absurd hh.symm hp
            · exact hh
          · exact Or.inr
        by_cases h : k ∈ rest.map Prod.fst
        · rw [if_pos h, if_pos (hcond.mpr h)]
        · rw [if_neg h, if_neg (fun hh => h (hcond.mp hh)), List.cons_append]

theorem mem_map_fst_setL {κ α : Type} [DecidableEq κ] (l : List (κ × α))
    (k q : κ) (v : α) :
    q ∈ (setL l k v).map Prod.fst ↔ q ∈ l.map Prod.fst ∨ q = k := by
  rw [map_fst_setL]
  by_cases h : k ∈ l.map Prod.fst
  · rw [if_pos h]
    constructor
    · exact Or.inl
    · rintro (hq | hq)
      · exact hq
      · exact hq ▸ h
  · rw [if_neg h]
    simp

theorem KeysNodup_setL {κ α : Type} [DecidableEq κ] (l : List (κ × α))
    (k : κ) (v : α) (h : KeysNodup l) : KeysNodup (setL l k v) := by
  induction l with
  | nil => simp [setL, KeysNodup]
  | cons p rest ih =>
      have hrest : KeysNodup rest := (List.nodup_cons.mp h).2
      have hnotin : p.1 ∉ rest.map Prod.fst := (List.nodup_cons.mp h).1
      by_cases hp : p.1 = k
      · subst hp
        simpa [setL, KeysNodup] using h
      · rw [KeysNodup, setL, if_neg hp, List.map_cons, List.nodup_cons]
        refine ⟨fun hmem => ?_, ih hrest⟩
        rcases (mem_map_fst_setL rest k p.1 v).mp hmem with hmem | hmem
        · exact hnotin hmem
        · exact hp hmem

theorem storeGet_storeUpd {v : Type} (dflt : v) (f : v → v) (s : Store v)
    (m : Nat) (ke : BKey) (ep m2 : Nat) (ke2 : BKey) (ep2 : Nat) :
    storeGet dflt (storeUpd dflt f s m ke ep) m2 ke2 ep2 =
      if m2 = m ∧ ke2 = ke ∧ ep2 = ep then f (storeGet dflt s m ke ep)
      else storeGet dflt s m2 ke2 ep2 := by
  by_cases hm : m2 = m <;> by_cases hke : ke2 = ke <;>
    by_cases hep : ep2 = ep <;>
      simp [storeGet, storeUpd, lookupL_setL, lookupL_getdL, getdL_fst,
        hm, hke, hep]

theorem storeGet_storeRead_snd {v : Type} (dflt : v) (s : Store v)
    (m : Nat) (ke : BKey) (ep m2 : Nat) (ke2 : BKey) (ep2 : Nat) :
    storeGet dflt (storeRead dflt s m ke ep).2 m2 ke2 ep2 =
      storeGet dflt s m2 ke2 ep2 := by
  rw [storeRead, storeGet_storeUpd]
  split_ifs with h
  · obtain ⟨h1, h2, h3⟩ := h
    subst h1; subst h2; subst h3; rfl
  · rfl

theorem storeGet_materializeMid {v : Type} (dflt : v) (s : Store v)
    (model : Nat) (ke : BKey) (m2 : Nat) (ke2 : BKey) (ep2 : Nat) :
    storeGet dflt (materializeMid s model ke) m2 ke2 ep2 =
      storeGet dflt s m2 ke2 ep2 := by
  by_cases hm : m2 = model <;> by_cases hke : ke2 = ke <;>
    simp [storeGet, materializeMid, lookupL_setL, lookupL_getdL, hm, hke]

theorem midOf_storeUpd {v : Type} (dflt : v) (f : v → v) (s : Store v)
    (m : Nat) (ke : BKey) (ep m2 : Nat) :
    midOf (storeUpd dflt f s m ke ep) m2 =
      if m2 = m then
        setL (midOf s m) ke
          (setL (getdL ((lookupL (midOf s m) ke).getD []) ep dflt).2 ep
            (f (getdL ((lookupL (midOf s m) ke).getD []) ep dflt).1))
      else midOf s m2 := by
  by_cases hm : m2 = m <;> simp [midOf, storeUpd, lookupL_setL, hm]

theorem lookupL_updTab {κ α : Type} [DecidableEq κ] (tab : List (κ × α))
    (k : κ) (dflt : α) (f : α → α) (q : κ) :
    lookupL (setL (getdL tab k dflt).2 k (f (getdL tab k dflt).1)) q =
      if q = k then some (f ((lookupL tab k).getD dflt))
      else lookupL tab q := by
  rw [lookupL_setL]
  by_cases h : q = k
  · simp [h, getdL_fst]
  · simp [h, lookupL_getdL]

theorem envsOfMid_setL_some {v : Type} (mid : Mid v) (k e : Nat)
    (tab : List (Nat × v)) (key : Nat) :
    envsOfMid (setL mid (k, some e) tab) key =
      if k = key then insert e (envsOfMid mid key)
      else envsOfMid mid key := by
  rw [envsOfMid, map_fst_setL]
  by_cases hmem : ((k, some e) : BKey) ∈ mid.map Prod.fst
  · rw [if_pos hmem]
    by_cases h : k = key
    · rw [if_pos h]
      have he : e ∈ envsOfMid mid key := by
        rw [envsOfMid]
        simp only [List.mem_toFinset, List.mem_filterMap]
        exact ⟨(k, some e), hmem, by rw [if_pos h]⟩
      rw [Finset.insert_eq_self.mpr he]
      rfl
    · rw [if_neg h]; rfl
  · rw [if_neg hmem, List.filterMap_append, List.toFinset_append]
    by_cases h : k = key
    · rw [if_pos h]
      have : List.filterMap
          (fun ke : BKey => if ke.1 = key then ke.2 else none)
          [(k, some e)] = [e] := by
        simp [List.filterMap, h]
      rw [this]
      rw [Finset.union_comm]
      simp [envsOfMid, Finset.insert_eq]
    · rw [if_neg h]
      have : List.filterMap
          (fun ke : BKey => if ke.1 = key then ke.2 else none)
          [(k, some e)] = [] := by
        simp [List.filterMap, h]
      rw [this]
      simp [envsOfMid]

theorem envsOfMid_setL_none {v : Type} (mid : Mid v) (k : Nat)
    (tab : List (Nat × v)) (key : Nat) :
    envsOfMid (setL mid (k, none) tab) key = envsOfMid mid key := by
  rw [envsOfMid, map_fst_setL]
  by_cases hmem : ((k, none) : BKey) ∈ mid.map Prod.fst
  · rw [if_pos hmem]; rfl
  · rw [if_neg hmem, List.filterMap_append, List.toFinset_append]
    have : List.filterMap
        (fun ke : BKey => if ke.1 = key then ke.2 else none)
        [(k, none)] = [] := by
      simp [List.filterMap]
    rw [this]
    simp [envsOfMid]

theorem envVal_setL {v : Type} (dflt : v) (mid : Mid v) (ke : BKey)
    (tab : List (Nat × v)) (key e ep : Nat) :
    envVal dflt (setL mid ke tab) key e ep =
      if (key, some e) = ke then (lookupL tab ep).getD dflt
      else envVal dflt mid key e ep := by
  rw [envVal, lookupL_setL]
  by_cases h : (key, (some e : Option Nat)) = ke
  · simp [h]
  · simp [h, envVal]

theorem mem_envsOfMid_of_lookup {v : Type} (mid : Mid v) (key e : Nat)
    (tab : List (Nat × v)) (h : lookupL mid (key, some e) = some tab) :
    e ∈ envsOfMid mid key := by
  have hmem : ((key, some e) : BKey) ∈ mid.map Prod.fst := by
    by_contra hn
    have hnone := (lookupL_eq_none_iff mid ((key, some e) : BKey)).mpr hn
    rw [h] at hnone
    exact Option.noConfusion hnone
  rw [envsOfMid]
  simp only [List.mem_toFinset, List.mem_filterMap]
  exact ⟨(key, some e), hmem, by simp⟩

theorem envVal_eq_dflt_of_not_mem {v : Type} (dflt : v) (mid : Mid v)
    (key e ep : Nat) (h : e ∉ envsOfMid mid key) :
    envVal dflt mid key e ep = dflt := by
  cases hl : lookupL mid (key, some e) with
  | some tab => exact absurd (mem_envsOfMid_of_lookup mid key e tab hl) h
  | none => simp [envVal, hl, lookupL]

/-- C3: with no explicit environment ids, after incrementing key 1 by 5 and
key 2 by 3 at the same timestamp under the same kind, merging key 2 into
key 1 makes `get_range` over the written bucket report 8 for key 1, key 2's
buckets no longer exist, and key 2 subsequently reads as 0. -/
theorem c3_merge_preserves_totals :
    ∃ t2, merge (incr (incr (initTSDB [(10, 10)]) 0 1 105 5 none)
        0 2 105 3 none) 0 1 [2] none = Except.ok t2 ∧
      lookupL (midOf t2.data 0) (2, none) = none ∧
      (get_range t2 0 [1, 2] 100 110 none none).1 =
        [(1, [(100, 8)]), (2, [(100, 0)])] :=
  ⟨_, rfl, by decide, by decide⟩

/-- C4: the claim says a counter or set merge called with a non-empty set of
explicit environment ids merges every bucket for each given environment and
the aggregate; the code instead rebinds `destination` to the inner bucket
mapping on the first loop iteration and raises `TypeError` on the second,
embedded as `.error`. -/
theorem c4_merge_with_env_ids_type_error :
    merge (incr (initTSDB [(10, 10)]) 0 2 105 5 (some 5)) 0 1 [2]
        (some [5]) = Except.error () ∧
      merge_distinct_counts (record (initTSDB [(10, 10)]) 0 2 {4} 105
        (some 5)) 0 1 [2] (some [5]) = Except.error () := by
  constructor
  · rfl
  · rfl

/-- C5: the claim says a frequency merge sums the sources' frequency scores
into the destination and drops the sources; the code pops from `self.data`
instead of `self.frequencies`, so the source's frequency bucket survives
untouched, the destination receives no scores, and when a source does hold
counter data the call raises `TypeError` (`Counter.update` on an int). -/
theorem c5_merge_frequencies_wrong_store :
    ∃ t2, merge_frequencies (record_frequency_multi (initTSDB [(10, 10)])
        [(0, [(2, [(7, 5)])])] 105 none) 0 1 [2] none = Except.ok t2 ∧
      lookupL (midOf t2.frequencies 0) (2, none) =
        lookupL (midOf (record_frequency_multi (initTSDB [(10, 10)])
          [(0, [(2, [(7, 5)])])] 105 none).frequencies 0) (2, none) ∧
      (lookupL (midOf t2.frequencies 0) (2, none)).isSome = true ∧
      storeGet [] t2.frequencies 0 (1, none) 100 = [] ∧
      merge_frequencies (incr (record_frequency_multi (initTSDB [(10, 10)])
          [(0, [(2, [(7, 5)])])] 105 none) 0 2 105 3 none) 0 1 [2] none =
        Except.error () :=
  ⟨_, rfl, rfl, rfl, rfl, rfl⟩

/-- C6: the claim says a set-store delete removes the targeted member sets
so distinct-count reads return 0; the code pops from `self.data` (the
counter store), leaving `self.sets` untouched, so the recorded member still
counts. -/
theorem c6_delete_distinct_counts_wrong_store :
    (delete_distinct_counts (record (initTSDB [(10, 10)]) 0 1 {7} 105 none)
        [0] [1] (some 100) (some 110) 0 none).sets =
      (record (initTSDB [(10, 10)]) 0 1 {7} 105 none).sets ∧
    (get_distinct_counts_series
        (delete_distinct_counts (record (initTSDB [(10, 10)]) 0 1 {7} 105
          none) [0] [1] (some 100) (some 110) 0 none)
        0 [1] 100 110 none none).1 = [(1, [(100, 1)])] ∧
    storeGet ∅
        (delete_distinct_counts (record (initTSDB [(10, 10)]) 0 1 {7} 105
          none) [0] [1] (some 100) (some 110) 0 none).sets
        0 (1, none) 100 = ({7} : Finset Nat) := by
  refine ⟨rfl, by decide, by decide⟩

/-- C8: the claim says a merge whose destination also appears among the
sources skips that source, leaving the destination unchanged; the code
instead pops the destination's own entry out of the store (the Python
`destination` reference is detached), so the destination's buckets are
destroyed and read as 0 afterwards. -/
theorem c8_self_merge_destroys_destination :
    storeGet 0 (incr (initTSDB [(10, 10)]) 0 1 105 5 none).data 0
        (1, none) 100 = 5 ∧
    ∃ t2, merge (incr (initTSDB [(10, 10)]) 0 1 105 5 none) 0 1 [1] none =
        Except.ok t2 ∧
      lookupL (midOf t2.data 0) (1, none) = none ∧
      storeGet 0 t2.data 0 (1, none) 100 = 0 ∧
      ∃ t3, merge_distinct_counts (record (initTSDB [(10, 10)]) 0 1 {4} 105
          none) 0 1 [1] none = Except.ok t3 ∧
        lookupL (midOf t3.sets 0) (1, none) = none :=
  ⟨by decide, _, rfl, by decide, by decide, _, rfl, by decide⟩

theorem midOf_materializeMid {v : Type} (s : Store v) (m : Nat) (ke : BKey)
    (m2 : Nat) :
    midOf (materializeMid s m ke) m2 =
      if m2 = m then (getdL (midOf s m) ke []).2 else midOf s m2 := by
  by_cases hm : m2 = m <;> simp [materializeMid, midOf, lookupL_setL, hm]

theorem storeGet_storeUpd_id {v : Type} (dflt : v) (s : Store v) (m : Nat)
    (ke : BKey) (ep m2 : Nat) (ke2 : BKey) (ep2 : Nat) :
    storeGet dflt (storeUpd dflt id s m ke ep) m2 ke2 ep2 =
      storeGet dflt s m2 ke2 ep2 :=
  storeGet_storeRead_snd dflt s m ke ep m2 ke2 ep2

theorem hasTabEntry_storeUpd_mono {v : Type} (dflt : v) (f : v → v)
    (s : Store v) (m : Nat) (ke : BKey) (ep m2 : Nat) (ke2 : BKey)
    (ep2 : Nat) (h : hasTabEntry s m2 ke2 ep2) :
    hasTabEntry (storeUpd dflt f s m ke ep) m2 ke2 ep2 := by
  unfold hasTabEntry at *
  rw [midOf_storeUpd]
  by_cases hm : m2 = m
  · rw [if_pos hm, lookupL_setL]
    by_cases hke : ke2 = ke
    · rw [if_pos hke, Option.getD_some, lookupL_updTab]
      by_cases hep : ep2 = ep
      · simp [hep]
      · rw [if_neg hep]
        rw [hm, hke] at h
        exact h
    · rw [if_neg hke, ← hm]
      exact h
  · rw [if_neg hm]
    exact h

theorem hasTabEntry_storeUpd_self {v : Type} (dflt : v) (f : v → v)
    (s : Store v) (m : Nat) (ke : BKey) (ep : Nat) :
    hasTabEntry (storeUpd dflt f s m ke ep) m ke ep := by
  unfold hasTabEntry
  rw [midOf_storeUpd, if_pos rfl, lookupL_setL, if_pos rfl,
    Option.getD_some, lookupL_updTab, if_pos rfl]
  rfl

theorem hasTabEntry_materializeMid_mono {v : Type} (s : Store v) (m : Nat)
    (ke : BKey) (m2 : Nat) (ke2 : BKey) (ep2 : Nat)
    (h : hasTabEntry s m2 ke2 ep2) :
    hasTabEntry (materializeMid s m ke) m2 ke2 ep2 := by
  unfold hasTabEntry at *
  rw [midOf_materializeMid]
  by_cases hm : m2 = m
  · rw [if_pos hm, lookupL_getdL]
    by_cases hke : ke2 = ke
    · rw [if_pos hke, Option.getD_some]
      rw [hm, hke] at h
      exact h
    · rw [if_neg hke, ← hm]
      exact h
  · rw [if_neg hm]
    exact h

theorem storeGet_materializeMid_eq {v : Type} (dflt : v) (s : Store v)
    (m : Nat) (ke : BKey) (m2 : Nat) (ke2 : BKey) (ep2 : Nat) :
    storeGet dflt (materializeMid s m ke) m2 ke2 ep2 =
      storeGet dflt s m2 ke2 ep2 :=
  storeGet_materializeMid dflt s m ke m2 ke2 ep2

theorem storeGet_seriesStoreFold {v : Type} (dflt : v) (d : Store v)
    (model key : Nat) (env : EnvId) (g : Nat) (series : List Nat)
    (m2 : Nat) (ke2 : BKey) (ep2 : Nat) :
    storeGet dflt (seriesStoreFold dflt d model key env g series) m2 ke2 ep2
      = storeGet dflt d m2 ke2 ep2 := by
  induction series generalizing d with
  | nil => rfl
  | cons ts rest ih =>
      show storeGet dflt (seriesStoreFold dflt
        (storeUpd dflt id d model (key, env) (bucket_epoch ts g))
        model key env g rest) m2 ke2 ep2 = _
      rw [ih, storeGet_storeUpd_id]

theorem storeGet_keysStoreFold {v : Type} (dflt : v) (d : Store v)
    (model : Nat) (keys : List Nat) (env : EnvId) (g : Nat)
    (series : List Nat) (m2 : Nat) (ke2 : BKey) (ep2 : Nat) :
    storeGet dflt (keysStoreFold dflt d model keys env g series) m2 ke2 ep2
      = storeGet dflt d m2 ke2 ep2 := by
  induction keys generalizing d with
  | nil => rfl
  | cons key rest ih =>
      show storeGet dflt (keysStoreFold dflt
        (seriesStoreFold dflt (materializeMid d model (key, env)) model key
          env g series) model rest env g series) m2 ke2 ep2 = _
      rw [ih, storeGet_seriesStoreFold, storeGet_materializeMid_eq]

theorem storeGet_rangeKeysFold (st0 : Store Int) (model : Nat)
    (keys : List Nat) (env : EnvId) (ep : Nat) (m2 : Nat) (ke2 : BKey)
    (ep2 : Nat) :
    storeGet 0 (keys.foldl (fun st key =>
        storeUpd 0 id st model (key, env) ep) st0) m2 ke2 ep2 =
      storeGet 0 st0 m2 ke2 ep2 := by
  induction keys generalizing st0 with
  | nil => rfl
  | cons key rest ih => rw [List.foldl_cons, ih, storeGet_storeUpd_id]

theorem storeGet_rangeStoreFold (d : Store Int) (model : Nat)
    (keys : List Nat) (env : EnvId) (g : Nat) (series : List Nat)
    (m2 : Nat) (ke2 : BKey) (ep2 : Nat) :
    storeGet 0 (rangeStoreFold d model keys env g series) m2 ke2 ep2 =
      storeGet 0 d m2 ke2 ep2 := by
  induction series generalizing d with
  | nil => rfl
  | cons ts rest ih =>
      show storeGet 0 (rangeStoreFold (keys.foldl (fun st key =>
        storeUpd 0 id st model (key, env) (bucket_epoch ts g)) d)
        model keys env g rest) m2 ke2 ep2 = _
      rw [ih, storeGet_rangeKeysFold]

theorem hasTab_seriesStoreFold_mono {v : Type} (dflt : v) (d : Store v)
    (model key : Nat) (env : EnvId) (g : Nat) (series : List Nat)
    (m2 : Nat) (ke2 : BKey) (ep2 : Nat) (h : hasTabEntry d m2 ke2 ep2) :
    hasTabEntry (seriesStoreFold dflt d model key env g series) m2 ke2
      ep2 := by
  induction series generalizing d with
  | nil => exact h
  | cons ts rest ih =>
      exact ih _ (hasTabEntry_storeUpd_mono dflt id d model (key, env)
        (bucket_epoch ts g) m2 ke2 ep2 h)

theorem hasTab_seriesStoreFold_mem {v : Type} (dflt : v) (d : Store v)
    (model key : Nat) (env : EnvId) (g : Nat) (series : List Nat)
    (ts0 : Nat) (hts : ts0 ∈ series) :
    hasTabEntry (seriesStoreFold dflt d model key env g series) model
      (key, env) (bucket_epoch ts0 g) := by
  induction series generalizing d with
  | nil => cases hts
  | cons ts rest ih =>
      rcases List.mem_cons.mp hts with h | h
      · subst h
        exact hasTab_seriesStoreFold_mono dflt _ model key env g rest _ _ _
          (hasTabEntry_storeUpd_self dflt id d model (key, env)
            (bucket_epoch ts0 g))
      · exact ih _ h

theorem hasTab_keysStoreFold_mono {v : Type} (dflt : v) (d : Store v)
    (model : Nat) (keys : List Nat) (env : EnvId) (g : Nat)
    (series : List Nat) (m2 : Nat) (ke2 : BKey) (ep2 : Nat)
    (h : hasTabEntry d m2 ke2 ep2) :
    hasTabEntry (keysStoreFold dflt d model keys env g series) m2 ke2
      ep2 := by
  induction keys generalizing d with
  | nil => exact h
  | cons key rest ih =>
      exact ih _ (hasTab_seriesStoreFold_mono dflt _ model key env g series
        m2 ke2 ep2 (hasTabEntry_materializeMid_mono d model (key, env) m2
          ke2 ep2 h))

theorem hasTab_keysStoreFold_mem {v : Type} (dflt : v) (d : Store v)
    (model : Nat) (keys : List Nat) (env : EnvId) (g : Nat)
    (series : List Nat) (key ts0 : Nat) (hkey : key ∈ keys)
    (hts : ts0 ∈ series) :
    hasTabEntry (keysStoreFold dflt d model keys env g series) model
      (key, env) (bucket_epoch ts0 g) := by
  induction keys generalizing d with
  | nil => cases hkey
  | cons k rest ih =>
      rcases List.mem_cons.mp hkey with h | h
      · subst h
        exact hasTab_keysStoreFold_mono dflt _ model rest env g series _ _ _
          (hasTab_seriesStoreFold_mem dflt _ model key env g series ts0 hts)
      · exact ih _ h

theorem hasTab_rangeKeysFold_mono (st0 : Store Int) (model : Nat)
    (keys : List Nat) (env : EnvId) (ep m2 : Nat) (ke2 : BKey) (ep2 : Nat)
    (h : hasTabEntry st0 m2 ke2 ep2) :
    hasTabEntry (keys.foldl (fun st key =>
      storeUpd 0 id st model (key, env) ep) st0) m2 ke2 ep2 := by
  induction keys generalizing st0 with
  | nil => exact h
  | cons key rest ih =>
      rw [List.foldl_cons]
      exact ih _ (hasTabEntry_storeUpd_mono 0 id st0 model (key, env) ep m2
        ke2 ep2 h)

theorem hasTab_rangeKeysFold_mem (st0 : Store Int) (model : Nat)
    (keys : List Nat) (env : EnvId) (ep key : Nat) (hkey : key ∈ keys) :
    hasTabEntry (keys.foldl (fun st k =>
      storeUpd 0 id st model (k, env) ep) st0) model (key, env) ep := by
  induction keys generalizing st0 with
  | nil => cases hkey
  | cons k rest ih =>
      rw [List.foldl_cons]
      rcases List.mem_cons.mp hkey with h | h
      · subst h
        exact hasTab_rangeKeysFold_mono _ model rest env ep _ _ _
          (hasTabEntry_storeUpd_self 0 id st0 model (key, env) ep)
      · exact ih _ h

theorem hasTab_rangeStoreFold_mono (d : Store Int) (model : Nat)
    (keys : List Nat) (env : EnvId) (g : Nat) (series : List Nat)
    (m2 : Nat) (ke2 : BKey) (ep2 : Nat) (h : hasTabEntry d m2 ke2 ep2) :
    hasTabEntry (rangeStoreFold d model keys env g series) m2 ke2 ep2 := by
  induction series generalizing d with
  | nil => exact h
  | cons ts rest ih =>
      exact ih _ (hasTab_rangeKeysFold_mono d model keys env
        (bucket_epoch ts g) m2 ke2 ep2 h)

theorem hasTab_rangeStoreFold_mem (d : Store Int) (model : Nat)
    (keys : List Nat) (env : EnvId) (g : Nat) (series : List Nat)
    (key ts0 : Nat) (hkey : key ∈ keys) (hts : ts0 ∈ series) :
    hasTabEntry (rangeStoreFold d model keys env g series) model (key, env)
      (bucket_epoch ts0 g) := by
  induction series generalizing d with
  | nil => cases hts
  | cons ts rest ih =>
      rcases List.mem_cons.mp hts with h | h
      · subst h
        exact hasTab_rangeStoreFold_mono _ model keys env g rest _ _ _
          (hasTab_rangeKeysFold_mem d model keys env (bucket_epoch ts0 g)
            key hkey)
      · exact ih _ h

theorem Option_eq_some_getD {α : Type} (o : Option α) (d : α)
    (h : o.isSome = true) : o = some (o.getD d) := by
  cases o with
  | none => cases h
  | some w => rfl

theorem rangeKeysFold_snd (model : Nat) (env : EnvId) (ep : Nat)
    (keys : List Nat) (init : List (Nat × Nat × Int) × Store Int) :
    (keys.foldl (rangeStep model env ep) init).2 =
      keys.foldl (fun st key => storeUpd 0 id st model (key, env) ep)
        init.2 := by
  induction keys generalizing init with
  | nil => rfl
  | cons key rest ih =>
      rw [List.foldl_cons, List.foldl_cons, ih]
      rfl

theorem rangeFold_snd (model : Nat) (env : EnvId) (g : Nat)
    (keys : List Nat) (series : List Nat)
    (init : List (Nat × Nat × Int) × Store Int) :
    (series.foldl (fun acc ts =>
        keys.foldl (rangeStep model env (bucket_epoch ts g)) acc) init).2 =
      rangeStoreFold init.2 model keys env g series := by
  induction series generalizing init with
  | nil => rfl
  | cons ts rest ih =>
      rw [List.foldl_cons, ih, rangeKeysFold_snd]
      rfl

theorem get_range_snd_data (t : InMemoryTSDB) (model : Nat)
    (keys : List Nat) (s e : Nat) (rollup : Option Nat) (env : EnvId) :
    (get_range t model keys s e rollup env).2.data =
      rangeStoreFold t.data model keys env
        (get_optimal_rollup_series t.rollups s e rollup).1
        (get_optimal_rollup_series t.rollups s e rollup).2 := by
  simp only [get_range]
  rw [rangeFold_snd]

theorem dcsSeriesFold_snd (model key : Nat) (env : EnvId) (g : Nat)
    (series : List Nat) (init : List (Nat × Nat) × Store (Finset Nat)) :
    (series.foldl (dcsStep model key env g) init).2 =
      seriesStoreFold ∅ init.2 model key env g series := by
  induction series generalizing init with
  | nil => rfl
  | cons ts rest ih =>
      rw [List.foldl_cons, ih]
      rfl

theorem dcsKeysFold_snd (model : Nat) (keys : List Nat) (env : EnvId)
    (g : Nat) (series : List Nat)
    (init : List (Nat × List (Nat × Nat)) × Store (Finset Nat)) :
    (keys.foldl
      (fun (acc : List (Nat × List (Nat × Nat)) × Store (Finset Nat)) key =>
        let inner := series.foldl (dcsStep model key env g)
          ([], materializeMid acc.2 model (key, env))
        (setL acc.1 key inner.1, inner.2)) init).2 =
      keysStoreFold ∅ init.2 model keys env g series := by
  induction keys generalizing init with
  | nil => rfl
  | cons key rest ih =>
      rw [List.foldl_cons, ih, dcsSeriesFold_snd]
      rfl

theorem gdcs_snd_sets (t : InMemoryTSDB) (model : Nat) (keys : List Nat)
    (s e : Nat) (rollup : Option Nat) (env : EnvId) :
    (get_distinct_counts_series t model keys s e rollup env).2.sets =
      keysStoreFold ∅ t.sets model keys env
        (get_optimal_rollup_series t.rollups s e rollup).1
        (get_optimal_rollup_series t.rollups s e rollup).2 := by
  simp only [get_distinct_counts_series]
  rw [dcsKeysFold_snd]

theorem gmfSeriesFold_snd (model key : Nat) (env : EnvId) (g : Nat)
    (series : List Nat)
    (init : List (Nat × Rat) × Store (List (Nat × Rat))) :
    (series.foldl (gmfStep model key env g) init).2 =
      seriesStoreFold [] init.2 model key env g series := by
  induction series generalizing init with
  | nil => rfl
  | cons ts rest ih =>
      rw [List.foldl_cons, ih]
      rfl

theorem gmfKeysFold_snd (model : Nat) (keys : List Nat) (env : EnvId)
    (g : Nat) (series : List Nat) (limit : Option Nat)
    (init : List (Nat × List (Nat × Rat)) × Store (List (Nat × Rat))) :
    (keys.foldl
      (fun (acc : List (Nat × List (Nat × Rat)) ×
          Store (List (Nat × Rat))) key =>
        let inner := series.foldl (gmfStep model key env g)
          ([], materializeMid acc.2 model (key, env))
        (setL acc.1 key (most_common inner.1 limit), inner.2)) init).2 =
      keysStoreFold [] init.2 model keys env g series := by
  induction keys generalizing init with
  | nil => rfl
  | cons key rest ih =>
      rw [List.foldl_cons, ih, gmfSeriesFold_snd]
      rfl

theorem gmf_snd_frequencies (t : InMemoryTSDB) (model : Nat)
    (keys : List Nat) (s e : Nat) (rollup limit : Option Nat)
    (env : EnvId) :
    (get_most_frequent t model keys s e rollup limit env).2.frequencies =
      keysStoreFold [] t.frequencies model keys env
        (get_optimal_rollup_series t.rollups s e rollup).1
        (get_optimal_rollup_series t.rollups s e rollup).2 := by
  simp only [get_most_frequent]
  rw [gmfKeysFold_snd]

/-- C10: every read operation (`get_range`, `get_distinct_counts_series`,
`get_most_frequent`) on a (kind, key, environment) coordinate that was never
written inserts default-valued entries (0 counters, empty sets, empty
counters) for the queried epochs into the backing store, so the read is not
state-preserving even though it returns identity values. -/
theorem c10_reads_materialize_defaults (t : InMemoryTSDB) (model : Nat)
    (keys : List Nat) (s e : Nat) (rollup limit : Option Nat) (env : EnvId)
    (key ts0 : Nat) (hkey : key ∈ keys)
    (hts : ts0 ∈ (get_optimal_rollup_series t.rollups s e rollup).2)
    (hdata : lookupL (midOf t.data model) (key, env) = none)
    (hsets : lookupL (midOf t.sets model) (key, env) = none)
    (hfreq : lookupL (midOf t.frequencies model) (key, env) = none) :
    (lookupL ((lookupL (midOf (get_range t model keys s e rollup env).2.data
          model) (key, env)).getD [])
        (bucket_epoch ts0 (get_optimal_rollup_series t.rollups s e
          rollup).1) = some 0 ∧
      (get_range t model keys s e rollup env).2.data ≠ t.data) ∧
    (lookupL ((lookupL (midOf (get_distinct_counts_series t model keys s e
          rollup env).2.sets model) (key, env)).getD [])
        (bucket_epoch ts0 (get_optimal_rollup_series t.rollups s e
          rollup).1) = some ∅ ∧
      (get_distinct_counts_series t model keys s e rollup env).2.sets ≠
        t.sets) ∧
    (lookupL ((lookupL (midOf (get_most_frequent t model keys s e rollup
          limit env).2.frequencies model) (key, env)).getD [])
        (bucket_epoch ts0 (get_optimal_rollup_series t.rollups s e
          rollup).1) = some [] ∧
      (get_most_frequent t model keys s e rollup limit env).2.frequencies ≠
        t.frequencies) := by
  refine ⟨⟨?_, ?_⟩, ⟨?_, ?_⟩, ?_, ?_⟩
  · have hpres : hasTabEntry (get_range t model keys s e rollup env).2.data
        model (key, env)
        (bucket_epoch ts0 (get_optimal_rollup_series t.rollups s e
          rollup).1) := by
      rw [get_range_snd_data]
      exact hasTab_rangeStoreFold_mem _ _ _ _ _ _ _ _ hkey hts
    have hval : storeGet 0 (get_range t model keys s e rollup env).2.data
        model (key, env)
        (bucket_epoch ts0 (get_optimal_rollup_series t.rollups s e
          rollup).1) = 0 := by
      rw [get_range_snd_data, storeGet_rangeStoreFold]
      unfold storeGet
      rw [show lookupL ((lookupL t.data model).getD []) (key, env) = none
        from hdata]
      rfl
    rw [Option_eq_some_getD _ 0 hpres]
    exact congrArg some hval
  · intro heq
    have hpres : hasTabEntry (get_range t model keys s e rollup env).2.data
        model (key, env)
        (bucket_epoch ts0 (get_optimal_rollup_series t.rollups s e
          rollup).1) := by
      rw [get_range_snd_data]
      exact hasTab_rangeStoreFold_mem _ _ _ _ _ _ _ _ hkey hts
    rw [heq] at hpres
    unfold hasTabEntry at hpres
    rw [hdata] at hpres
    simp [lookupL] at hpres
  · have hpres : hasTabEntry
        (get_distinct_counts_series t model keys s e rollup env).2.sets
        model (key, env)
        (bucket_epoch ts0 (get_optimal_rollup_series t.rollups s e
          rollup).1) := by
      rw [gdcs_snd_sets]
      exact hasTab_keysStoreFold_mem _ _ _ _ _ _ _ _ _ hkey hts
    have hval : storeGet ∅
        (get_distinct_counts_series t model keys s e rollup env).2.sets
        model (key, env)
        (bucket_epoch ts0 (get_optimal_rollup_series t.rollups s e
          rollup).1) = ∅ := by
      rw [gdcs_snd_sets, storeGet_keysStoreFold]
      unfold storeGet
      rw [show lookupL ((lookupL t.sets model).getD []) (key, env) = none
        from hsets]
      rfl
    rw [Option_eq_some_getD _ ∅ hpres]
    exact congrArg some hval
  · intro heq
    have hpres : hasTabEntry
        (get_distinct_counts_series t model keys s e rollup env).2.sets
        model (key, env)
        (bucket_epoch ts0 (get_optimal_rollup_series t.rollups s e
          rollup).1) := by
      rw [gdcs_snd_sets]
      exact hasTab_keysStoreFold_mem _ _ _ _ _ _ _ _ _ hkey hts
    rw [heq] at hpres
    unfold hasTabEntry at hpres
    rw [hsets] at hpres
    simp [lookupL] at hpres
  · have hpres : hasTabEntry
        (get_most_frequent t model keys s e rollup limit env).2.frequencies
        model (key, env)
        (bucket_epoch ts0 (get_optimal_rollup_series t.rollups s e
          rollup).1) := by
      rw [gmf_snd_frequencies]
      exact hasTab_keysStoreFold_mem _ _ _ _ _ _ _ _ _ hkey hts
    have hval : storeGet []
        (get_most_frequent t model keys s e rollup limit env).2.frequencies
        model (key, env)
        (bucket_epoch ts0 (get_optimal_rollup_series t.rollups s e
          rollup).1) = [] := by
      rw [gmf_snd_frequencies, storeGet_keysStoreFold]
      unfold storeGet
      rw [show lookupL ((lookupL t.frequencies model).getD []) (key, env) =
        none from hfreq]
      rfl
    rw [Option_eq_some_getD _ [] hpres]
    exact congrArg some hval
  · intro heq
    have hpres : hasTabEntry
        (get_most_frequent t model keys s e rollup limit env).2.frequencies
        model (key, env)
        (bucket_epoch ts0 (get_optimal_rollup_series t.rollups s e
          rollup).1) := by
      rw [gmf_snd_frequencies]
      exact hasTab_keysStoreFold_mem _ _ _ _ _ _ _ _ _ hkey hts
    rw [heq] at hpres
    unfold hasTabEntry at hpres
    rw [hfreq] at hpres
    simp [lookupL] at hpres

/-- Witness for C10: a concrete never-written coordinate queried over a
concrete schedule satisfies the hypotheses, and `get_range` materializes a
zero-valued entry for it. -/
theorem c10_reads_materialize_defaults_witness :
    ((1 : Nat) ∈ [1] ∧
      (100 : Nat) ∈ (get_optimal_rollup_series (initTSDB
        [(10, 10)]).rollups 100 110 none).2 ∧
      lookupL (midOf (initTSDB [(10, 10)]).data 0) (1, none) = none ∧
      lookupL (midOf (initTSDB [(10, 10)]).sets 0) (1, none) = none ∧
      lookupL (midOf (initTSDB [(10, 10)]).frequencies 0) (1, none) =
        none) ∧
    lookupL ((lookupL (midOf (get_range (initTSDB [(10, 10)]) 0 [1] 100 110
        none none).2.data 0) (1, none)).getD [])
      (bucket_epoch 100 (get_optimal_rollup_series (initTSDB
        [(10, 10)]).rollups 100 110 none).1) = some 0 :=
  ⟨⟨by decide, by decide, by decide, by decide, by decide⟩,
    (c10_reads_materialize_defaults (initTSDB [(10, 10)]) 0 [1] 100 110
      none none none 1 100 (by decide) (by decide) (by decide) (by decide)
      (by decide)).1.1⟩

theorem gmfSeriesFold_fst (t0 d : Store (List (Nat × Rat)))
    (model key : Nat) (env : EnvId) (g : Nat) (series : List Nat)
    (c : List (Nat × Rat))
    (hview : ∀ m2 ke2 ep2, storeGet [] d m2 ke2 ep2 =
      storeGet [] t0 m2 ke2 ep2) :
    (series.foldl (gmfStep model key env g) (c, d)).1 =
      series.foldl (fun c2 ts =>
        ctrUpdate c2 (storeGet [] t0 model (key, env) (bucket_epoch ts g)))
        c := by
  induction series generalizing c d with
  | nil => rfl
  | cons ts rest ih =>
      rw [List.foldl_cons, List.foldl_cons]
      have hstep : gmfStep model key env g (c, d) ts =
          (ctrUpdate c (storeGet [] t0 model (key, env)
            (bucket_epoch ts g)),
           storeUpd [] id d model (key, env) (bucket_epoch ts g)) := by
        unfold gmfStep storeRead
        rw [hview]
      rw [hstep]
      exact ih _ _ (fun m2 ke2 ep2 => by rw [storeGet_storeUpd_id, hview])

theorem gmf_fst_lookup (t0 : Store (List (Nat × Rat))) (model : Nat)
    (keys : List Nat) (env : EnvId) (g : Nat) (series : List Nat)
    (limit : Option Nat)
    (init : List (Nat × List (Nat × Rat)) × Store (List (Nat × Rat)))
    (hview : ∀ m2 ke2 ep2, storeGet [] init.2 m2 ke2 ep2 =
      storeGet [] t0 m2 ke2 ep2) (key : Nat) :
    lookupL (keys.foldl
      (fun (acc : List (Nat × List (Nat × Rat)) ×
          Store (List (Nat × Rat))) key =>
        let inner := series.foldl (gmfStep model key env g)
          ([], materializeMid acc.2 model (key, env))
        (setL acc.1 key (most_common inner.1 limit), inner.2)) init).1 key =
      if key ∈ keys then
        some (most_common (series.foldl (fun c2 ts =>
          ctrUpdate c2 (storeGet [] t0 model (key, env)
            (bucket_epoch ts g))) []) limit)
      else lookupL init.1 key := by
  induction keys generalizing init with
  | nil => simp
  | cons k rest ih =>
      rw [List.foldl_cons]
      have hviewmat : ∀ m2 ke2 ep2,
          storeGet [] (materializeMid init.2 model (k, env)) m2 ke2 ep2 =
            storeGet [] t0 m2 ke2 ep2 := fun m2 ke2 ep2 => by
        rw [storeGet_materializeMid_eq, hview]
      have hinner1 : (series.foldl (gmfStep model k env g)
          ([], materializeMid init.2 model (k, env))).1 =
          series.foldl (fun c2 ts =>
            ctrUpdate c2 (storeGet [] t0 model (k, env)
              (bucket_epoch ts g))) [] :=
        gmfSeriesFold_fst t0 _ model k env g series [] hviewmat
      have hview2 : ∀ m2 ke2 ep2,
          storeGet [] (series.foldl (gmfStep model k env g)
            ([], materializeMid init.2 model (k, env))).2 m2 ke2 ep2 =
            storeGet [] t0 m2 ke2 ep2 := fun m2 ke2 ep2 => by
        rw [gmfSeriesFold_snd, storeGet_seriesStoreFold]
        exact hviewmat m2 ke2 ep2
      rw [ih _ hview2]
      by_cases hk : key ∈ rest
      · rw [if_pos hk, if_pos (List.mem_cons_of_mem k hk)]
      · rw [if_neg hk]
        show lookupL (setL init.1 k (most_common
            ((series.foldl (gmfStep model k env g)
              ([], materializeMid init.2 model (k, env))).1) limit)) key =
          if key ∈ k :: rest then
            some (most_common (series.foldl (fun c2 ts =>
              ctrUpdate c2 (storeGet [] t0 model (key, env)
                (bucket_epoch ts g))) []) limit)
          else lookupL init.1 key
        rw [lookupL_setL]
        by_cases hkey : key = k
        · rw [if_pos hkey,
            if_pos (by rw [hkey]; exact List.mem_cons_self k rest),
            hinner1, hkey]
        · rw [if_neg hkey,
            if_neg (by
              intro hmem
              rcases List.mem_cons.mp hmem with h | h
              · exact hkey h
              · exact hk h)]

theorem gmf_result (t : InMemoryTSDB) (model : Nat) (keys : List Nat)
    (s e : Nat) (rollup limit : Option Nat) (env : EnvId) (key : Nat) :
    lookupL (get_most_frequent t model keys s e rollup limit env).1 key =
      if key ∈ keys then
        some (most_common (accFreq t.frequencies model key env
          (get_optimal_rollup_series t.rollups s e rollup).1
          (get_optimal_rollup_series t.rollups s e rollup).2) limit)
      else none := by
  simp only [get_most_frequent]
  rw [gmf_fst_lookup t.frequencies model keys env
    (get_optimal_rollup_series t.rollups s e rollup).1
    (get_optimal_rollup_series t.rollups s e rollup).2 limit
    ([], t.frequencies) (fun _ _ _ => rfl) key]
  rfl

theorem most_common_pairwise (c : List (Nat × Rat)) (limit : Option Nat) :
    List.Pairwise (fun a b : Nat × Rat => b.2 ≤ a.2)
      (most_common c limit) := by
  have hs := List.sorted_insertionSort (fun a b : Nat × Rat => b.2 ≤ a.2) c
  unfold most_common
  cases limit with
  | none => exact hs
  | some n => exact List.Pairwise.sublist (List.take_sublist n _) hs

theorem most_common_length (c : List (Nat × Rat)) (limit : Option Nat) :
    (most_common c limit).length =
      (match limit with
        | none => c.length
        | some n => min n c.length) := by
  have hperm := List.perm_insertionSort (fun a b : Nat × Rat => b.2 ≤ a.2) c
  unfold most_common
  cases limit with
  | none => exact hperm.length_eq
  | some n => rw [List.length_take, hperm.length_eq]

theorem most_common_perm (c : List (Nat × Rat)) :
    (most_common c none).Perm c :=
  List.perm_insertionSort (fun a b : Nat × Rat => b.2 ≤ a.2) c

theorem most_common_threshold (c : List (Nat × Rat)) (limit : Option Nat)
    (p q : Nat × Rat) (hp : p ∈ most_common c limit) (hq : q ∈ c)
    (hnot : q ∉ most_common c limit) : q.2 ≤ p.2 := by
  have hs : List.Pairwise (fun a b : Nat × Rat => b.2 ≤ a.2)
      (c.insertionSort (fun a b => b.2 ≤ a.2)) :=
    List.sorted_insertionSort (fun a b : Nat × Rat => b.2 ≤ a.2) c
  have hqs : q ∈ c.insertionSort (fun a b => b.2 ≤ a.2) :=
    ((List.perm_insertionSort (fun a b : Nat × Rat => b.2 ≤ a.2)
      c).mem_iff).mpr hq
  unfold most_common at hp hnot
  cases limit with
  | none => exact absurd hqs hnot
  | some n =>
      have hsplit : c.insertionSort (fun a b => b.2 ≤ a.2) =
          (c.insertionSort (fun a b => b.2 ≤ a.2)).take n ++
            (c.insertionSort (fun a b => b.2 ≤ a.2)).drop n :=
        (List.take_append_drop n _).symm
      have hqdrop : q ∈ (c.insertionSort (fun a b => b.2 ≤ a.2)).drop n := by
        rcases List.mem_append.mp (hsplit ▸ hqs) with h | h
        · exact absurd h hnot
        · exact h
      have hcross := (List.pairwise_append.mp (hsplit ▸ hs)).2.2
      exact hcross p hp q hqdrop

/-- C9: for every key queried by `get_most_frequent`, per-member scores are
accumulated across all buckets in the range, and the result is sorted in
descending score order, truncated to `limit` (the full accumulated table,
up to permutation, when `limit` is omitted); every returned member's score
is at least the score of every excluded member. -/
theorem c9_most_frequent_topk (t : InMemoryTSDB) (model : Nat)
    (keys : List Nat) (s e : Nat) (rollup limit : Option Nat) (env : EnvId)
    (key : Nat) (hkey : key ∈ keys) :
    ∃ res, lookupL (get_most_frequent t model keys s e rollup limit
        env).1 key = some res ∧
      res = most_common (accFreq t.frequencies model key env
        (get_optimal_rollup_series t.rollups s e rollup).1
        (get_optimal_rollup_series t.rollups s e rollup).2) limit ∧
      List.Pairwise (fun a b : Nat × Rat => b.2 ≤ a.2) res ∧
      res.length = (match limit with
        | none => (accFreq t.frequencies model key env
            (get_optimal_rollup_series t.rollups s e rollup).1
            (get_optimal_rollup_series t.rollups s e rollup).2).length
        | some n => min n (accFreq t.frequencies model key env
            (get_optimal_rollup_series t.rollups s e rollup).1
            (get_optimal_rollup_series t.rollups s e rollup).2).length) ∧
      (limit = none → res.Perm (accFreq t.frequencies model key env
        (get_optimal_rollup_series t.rollups s e rollup).1
        (get_optimal_rollup_series t.rollups s e rollup).2)) ∧
      (∀ p ∈ res, ∀ q ∈ accFreq t.frequencies model key env
          (get_optimal_rollup_series t.rollups s e rollup).1
          (get_optimal_rollup_series t.rollups s e rollup).2,
        q.1 ∉ res.map Prod.fst → q.2 ≤ p.2) := by
  refine ⟨_, by rw [gmf_result, if_pos hkey], rfl, ?_, ?_, ?_, ?_⟩
  · exact most_common_pairwise _ limit
  · exact most_common_length _ limit
  · intro hl
    subst hl
    exact most_common_perm _
  · intro p hp q hq hnot
    refine most_common_threshold _ limit p q hp hq ?_
    intro hmem
    exact hnot (List.mem_map_of_mem Prod.fst hmem)

/-- Witness for C9: the spec's example, scores a=5, b=3, c=5 (members 10,
20, 30) with limit 2: the result is sorted descending and every returned
score is at least every excluded score. -/
theorem c9_most_frequent_topk_witness :
    ((1 : Nat) ∈ [1]) ∧
    ∃ res, lookupL (get_most_frequent (record_frequency_multi
        (initTSDB [(10, 10)]) [(0, [(1, [(10, 5), (20, 3), (30, 5)])])] 105
        none) 0 [1] 100 110 none (some 2) none).1 1 = some res ∧
      List.Pairwise (fun a b : Nat × Rat => b.2 ≤ a.2) res ∧
      (∀ p ∈ res, ∀ q ∈ accFreq (record_frequency_multi
          (initTSDB [(10, 10)]) [(0, [(1, [(10, 5), (20, 3), (30, 5)])])]
          105 none).frequencies 0 1 none
          (get_optimal_rollup_series [(10, 10)] 100 110 none).1
          (get_optimal_rollup_series [(10, 10)] 100 110 none).2,
        q.1 ∉ res.map Prod.fst → q.2 ≤ p.2) :=
  ⟨by decide,
    (c9_most_frequent_topk (record_frequency_multi (initTSDB [(10, 10)])
      [(0, [(1, [(10, 5), (20, 3), (30, 5)])])] 105 none) 0 [1] 100 110
      none (some 2) none 1 (by decide)).imp
      (fun res h => ⟨h.1, h.2.2.1, h.2.2.2.2.2⟩)⟩

theorem lookupL_mem {κ α : Type} [DecidableEq κ] (l : List (κ × α)) (k : κ)
    (v : α) (h : lookupL l k = some v) : (k, v) ∈ l := by
  induction l with
  | nil => cases h
  | cons p rest ih =>
      rw [lookupL] at h
      by_cases hp : p.1 = k
      · rw [if_pos hp] at h
        cases h
        subst hp
        exact List.mem_cons_self p rest
      · rw [if_neg hp] at h
        exact List.mem_cons_of_mem p (ih h)

theorem mem_setL_elim {κ α : Type} [DecidableEq κ] (l : List (κ × α))
    (k : κ) (v : α) (q : κ × α) (h : q ∈ setL l k v) :
    q = (k, v) ∨ q ∈ l := by
  induction l with
  | nil => simpa [setL] using h
  | cons p rest ih =>
      rw [setL] at h
      by_cases hp : p.1 = k
      · rw [if_pos hp] at h
        rcases List.mem_cons.mp h with h1 | h1
        · exact Or.inl h1
        · exact Or.inr (List.mem_cons_of_mem p h1)
      · rw [if_neg hp] at h
        rcases List.mem_cons.mp h with h1 | h1
        · exact Or.inr (h1 ▸ List.mem_cons_self p rest)
        · rcases ih h1 with h2 | h2
          · exact Or.inl h2
          · exact Or.inr (List.mem_cons_of_mem p h2)

theorem mem_getdL_elim {κ α : Type} [DecidableEq κ] (l : List (κ × α))
    (k : κ) (d : α) (q : κ × α) (h : q ∈ (getdL l k d).2) :
    q ∈ l ∨ q = (k, d) := by
  cases hl : lookupL l k with
  | some v =>
      simp only [getdL, hl] at h
      exact Or.inl h
  | none =>
      simp only [getdL, hl] at h
      rcases List.mem_append.mp h with h1 | h1
      · exact Or.inl h1
      · exact Or.inr (List.mem_singleton.mp h1)

theorem TabsNodup_tab {v : Type} (s : Store v) (h : TabsNodup s)
    (model : Nat) (ke : BKey) :
    KeysNodup ((lookupL (midOf s model) ke).getD []) := by
  cases hm : lookupL s model with
  | none => simp [midOf, hm, lookupL, KeysNodup]
  | some mid =>
      cases hk : lookupL mid ke with
      | none => simp [midOf, hm, hk, KeysNodup]
      | some tab =>
          have h1 := lookupL_mem s model mid hm
          have h2 := lookupL_mem mid ke tab hk
          simpa [midOf, hm, hk] using h (model, mid) h1 (ke, tab) h2

theorem KeysNodup_popFold {v : Type} (g : Nat) (series : List Nat)
    (tab : List (Nat × v)) (h : KeysNodup tab) :
    KeysNodup (series.foldl (fun tb ts => popL tb (bucket_epoch ts g))
      tab) := by
  induction series generalizing tab with
  | nil => exact h
  | cons ts rest ih =>
      rw [List.foldl_cons]
      exact ih _ (KeysNodup_popL tab _ h)

theorem lookupL_popFold {v : Type} (g : Nat) (series : List Nat)
    (tab : List (Nat × v)) (q : Nat) (h : KeysNodup tab) :
    lookupL (series.foldl (fun tb ts => popL tb (bucket_epoch ts g)) tab)
        q =
      if ∃ ts ∈ series, bucket_epoch ts g = q then none
      else lookupL tab q := by
  induction series generalizing tab with
  | nil => simp
  | cons ts rest ih =>
      rw [List.foldl_cons, ih _ (KeysNodup_popL tab _ h)]
      by_cases hex : ∃ ts2 ∈ rest, bucket_epoch ts2 g = q
      · obtain ⟨ts2, hmem, heq⟩ := hex
        rw [if_pos ⟨ts2, hmem, heq⟩,
          if_pos ⟨ts2, List.mem_cons_of_mem ts hmem, heq⟩]
      · rw [if_neg hex, lookupL_popL tab _ _ h]
        by_cases hq : q = bucket_epoch ts g
        · rw [if_pos hq, if_pos ⟨ts, List.mem_cons_self ts rest, hq.symm⟩]
        · rw [if_neg hq, if_neg (by
            rintro ⟨ts2, hmem, heq⟩
            rcases List.mem_cons.mp hmem with h2 | h2
            · exact hq (h2 ▸ heq).symm
            · exact hex ⟨ts2, h2, heq⟩)]

theorem TabsNodup_deleteStep (g : Nat) (series : List Nat) (s : Store Int)
    (model key : Nat) (env : EnvId) (h : TabsNodup s) :
    TabsNodup (setL s model
      (popEpochs g series (midOf s model) (key, env))) := by
  intro p hp q hq
  rcases mem_setL_elim s model _ p hp with hp1 | hp1
  · subst hp1
    unfold popEpochs at hq
    rcases mem_setL_elim _ _ _ q hq with hq1 | hq1
    · subst hq1
      exact KeysNodup_popFold g series _
        (by rw [getdL_fst]; exact TabsNodup_tab s h model (key, env))
    · rcases mem_getdL_elim _ _ _ q hq1 with hq2 | hq2
      · cases hm : lookupL s model with
        | none =>
            rw [midOf, hm] at hq2
            cases hq2
        | some mid =>
            rw [midOf, hm] at hq2
            exact h (model, mid) (lookupL_mem s model mid hm) q hq2
      · subst hq2
        simp [KeysNodup]
  · exact h p hp1 q hq

theorem storeGet_popEpochs_setL (g : Nat) (series : List Nat)
    (s : Store Int) (model key : Nat) (env : EnvId) (m2 : Nat) (ke2 : BKey)
    (ep2 : Nat) (h : TabsNodup s) :
    storeGet 0 (setL s model
        (popEpochs g series (midOf s model) (key, env))) m2 ke2 ep2 =
      if m2 = model ∧ ke2 = (key, env) ∧
          ∃ ts ∈ series, bucket_epoch ts g = ep2
      then 0 else storeGet 0 s m2 ke2 ep2 := by
  by_cases hm : m2 = model
  · subst hm
    by_cases hke : ke2 = (key, env)
    · subst hke
      unfold storeGet popEpochs
      rw [lookupL_setL, if_pos rfl, Option.getD_some, lookupL_setL,
        if_pos rfl, Option.getD_some,
        lookupL_popFold g series _ ep2
          (by rw [getdL_fst]; exact TabsNodup_tab s h m2 (key, env)),
        getdL_fst]
      by_cases hex : ∃ ts ∈ series, bucket_epoch ts g = ep2
      · rw [if_pos hex, if_pos ⟨rfl, rfl, hex⟩]
        rfl
      · rw [if_neg hex, if_neg (fun hc => hex hc.2.2)]
        rfl
    · unfold storeGet popEpochs
      rw [lookupL_setL, if_pos rfl, Option.getD_some, lookupL_setL,
        if_neg hke, lookupL_getdL, if_neg hke,
        if_neg (fun hc => hke hc.2.1)]
      rfl
  · unfold storeGet
    rw [lookupL_setL, if_neg hm, if_neg (fun hc => hm hc.1)]

theorem TabsNodup_envsFold (g : Nat) (series : List Nat) (s : Store Int)
    (model key : Nat) (envs : List EnvId) (h : TabsNodup s) :
    TabsNodup (envs.foldl (fun s env => setL s model
      (popEpochs g series (midOf s model) (key, env))) s) := by
  induction envs generalizing s with
  | nil => exact h
  | cons env rest ih =>
      rw [List.foldl_cons]
      exact ih _ (TabsNodup_deleteStep g series s model key env h)

theorem storeGet_delete_envsFold (g : Nat) (series : List Nat)
    (s : Store Int) (model key : Nat) (envs : List EnvId) (m2 : Nat)
    (ke2 : BKey) (ep2 : Nat) (h : TabsNodup s) :
    storeGet 0 (envs.foldl (fun s env => setL s model
        (popEpochs g series (midOf s model) (key, env))) s) m2 ke2 ep2 =
      if m2 = model ∧ ke2.1 = key ∧ ke2.2 ∈ envs ∧
          ∃ ts ∈ series, bucket_epoch ts g = ep2
      then 0 else storeGet 0 s m2 ke2 ep2 := by
  induction envs generalizing s with
  | nil => simp
  | cons env rest ih =>
      rw [List.foldl_cons,
        ih _ (TabsNodup_deleteStep g series s model key env h),
        storeGet_popEpochs_setL g series s model key env m2 ke2 ep2 h]
      by_cases hc : m2 = model ∧ ke2.1 = key ∧ ke2.2 ∈ env :: rest ∧
          ∃ ts ∈ series, bucket_epoch ts g = ep2
      · rw [if_pos hc]
        obtain ⟨h1, h2, h3, h4⟩ := hc
        rcases List.mem_cons.mp h3 with h5 | h5
        · rw [if_pos (⟨h1, Prod.ext h2 h5, h4⟩ :
            m2 = model ∧ ke2 = (key, env) ∧
              ∃ ts ∈ series, bucket_epoch ts g = ep2), ite_self]
        · rw [if_pos ⟨h1, h2, h5, h4⟩]
      · rw [if_neg hc]
        have hne1 : ¬(m2 = model ∧ ke2.1 = key ∧ ke2.2 ∈ rest ∧
            ∃ ts ∈ series, bucket_epoch ts g = ep2) := fun hcr => hc
          ⟨hcr.1, hcr.2.1, List.mem_cons_of_mem env hcr.2.2.1, hcr.2.2.2⟩
        have hne2 : ¬(m2 = model ∧ ke2 = (key, env) ∧
            ∃ ts ∈ series, bucket_epoch ts g = ep2) := by
          rintro ⟨ha, hb, hcx⟩
          refine hc ⟨ha, ?_, ?_, hcx⟩
          · rw [hb]
          · rw [hb]
            exact List.mem_cons_self env rest
        rw [if_neg hne1, if_neg hne2]

theorem TabsNodup_keysFold (g : Nat) (series : List Nat) (s : Store Int)
    (model : Nat) (keys : List Nat) (envs : List EnvId) (h : TabsNodup s) :
    TabsNodup (keys.foldl (fun s key => envs.foldl (fun s env =>
      setL s model (popEpochs g series (midOf s model) (key, env))) s)
      s) := by
  induction keys generalizing s with
  | nil => exact h
  | cons key rest ih =>
      rw [List.foldl_cons]
      exact ih _ (TabsNodup_envsFold g series s model key envs h)

theorem storeGet_delete_keysFold (g : Nat) (series : List Nat)
    (s : Store Int) (model : Nat) (keys : List Nat) (envs : List EnvId)
    (m2 : Nat) (ke2 : BKey) (ep2 : Nat) (h : TabsNodup s) :
    storeGet 0 (keys.foldl (fun s key => envs.foldl (fun s env =>
        setL s model (popEpochs g series (midOf s model) (key, env))) s)
        s) m2 ke2 ep2 =
      if m2 = model ∧ ke2.1 ∈ keys ∧ ke2.2 ∈ envs ∧
          ∃ ts ∈ series, bucket_epoch ts g = ep2
      then 0 else storeGet 0 s m2 ke2 ep2 := by
  induction keys generalizing s with
  | nil => simp
  | cons key rest ih =>
      rw [List.foldl_cons,
        ih _ (TabsNodup_envsFold g series s model key envs h),
        storeGet_delete_envsFold g series s model key envs m2 ke2 ep2 h]
      by_cases hc : m2 = model ∧ ke2.1 ∈ key :: rest ∧ ke2.2 ∈ envs ∧
          ∃ ts ∈ series, bucket_epoch ts g = ep2
      · rw [if_pos hc]
        obtain ⟨h1, h2, h3, h4⟩ := hc
        rcases List.mem_cons.mp h2 with h5 | h5
        · rw [if_pos (⟨h1, h5, h3, h4⟩ :
            m2 = model ∧ ke2.1 = key ∧ ke2.2 ∈ envs ∧
              ∃ ts ∈ series, bucket_epoch ts g = ep2), ite_self]
        · rw [if_pos ⟨h1, h5, h3, h4⟩]
      · rw [if_neg hc]
        have hne1 : ¬(m2 = model ∧ ke2.1 ∈ rest ∧ ke2.2 ∈ envs ∧
            ∃ ts ∈ series, bucket_epoch ts g = ep2) := fun hcr =>
          hc ⟨hcr.1, List.mem_cons_of_mem key hcr.2.1, hcr.2.2⟩
        have hne2 : ¬(m2 = model ∧ ke2.1 = key ∧ ke2.2 ∈ envs ∧
            ∃ ts ∈ series, bucket_epoch ts g = ep2) := by
          rintro ⟨ha, hb, hcx⟩
          refine hc ⟨ha, ?_, hcx⟩
          rw [hb]
          exact List.mem_cons_self key rest
        rw [if_neg hne1, if_neg hne2]

theorem TabsNodup_modelsFold (g : Nat) (series : List Nat) (s : Store Int)
    (models keys : List Nat) (envs : List EnvId) (h : TabsNodup s) :
    TabsNodup (models.foldl (fun s model => keys.foldl (fun s key =>
      envs.foldl (fun s env =>
        setL s model (popEpochs g series (midOf s model) (key, env))) s) s)
      s) := by
  induction models generalizing s with
  | nil => exact h
  | cons model rest ih =>
      rw [List.foldl_cons]
      exact ih _ (TabsNodup_keysFold g series s model keys envs h)

theorem storeGet_delete_modelsFold (g : Nat) (series : List Nat)
    (s : Store Int) (models keys : List Nat) (envs : List EnvId) (m2 : Nat)
    (ke2 : BKey) (ep2 : Nat) (h : TabsNodup s) :
    storeGet 0 (models.foldl (fun s model => keys.foldl (fun s key =>
        envs.foldl (fun s env =>
          setL s model (popEpochs g series (midOf s model) (key, env))) s)
        s) s) m2 ke2 ep2 =
      if m2 ∈ models ∧ ke2.1 ∈ keys ∧ ke2.2 ∈ envs ∧
          ∃ ts ∈ series, bucket_epoch ts g = ep2
      then 0 else storeGet 0 s m2 ke2 ep2 := by
  induction models generalizing s with
  | nil => simp
  | cons model rest ih =>
      rw [List.foldl_cons,
        ih _ (TabsNodup_keysFold g series s model keys envs h),
        storeGet_delete_keysFold g series s model keys envs m2 ke2 ep2 h]
      by_cases hc : m2 ∈ model :: rest ∧ ke2.1 ∈ keys ∧ ke2.2 ∈ envs ∧
          ∃ ts ∈ series, bucket_epoch ts g = ep2
      · rw [if_pos hc]
        obtain ⟨h1, h2, h3, h4⟩ := hc
        rcases List.mem_cons.mp h1 with h5 | h5
        · rw [if_pos (⟨h5, h2, h3, h4⟩ :
            m2 = model ∧ ke2.1 ∈ keys ∧ ke2.2 ∈ envs ∧
              ∃ ts ∈ series, bucket_epoch ts g = ep2), ite_self]
        · rw [if_pos ⟨h5, h2, h3, h4⟩]
      · rw [if_neg hc]
        have hne1 : ¬(m2 ∈ rest ∧ ke2.1 ∈ keys ∧ ke2.2 ∈ envs ∧
            ∃ ts ∈ series, bucket_epoch ts g = ep2) := fun hcr =>
          hc ⟨List.mem_cons_of_mem model hcr.1, hcr.2⟩
        have hne2 : ¬(m2 = model ∧ ke2.1 ∈ keys ∧ ke2.2 ∈ envs ∧
            ∃ ts ∈ series, bucket_epoch ts g = ep2) := by
          rintro ⟨ha, hb⟩
          refine hc ⟨?_, hb⟩
          rw [ha]
          exact List.mem_cons_self model rest
        rw [if_neg hne1, if_neg hne2]

theorem epochTargeted_cons (gp : Nat × List Nat)
    (rest : List (Nat × List Nat)) (ep : Nat) :
    epochTargeted (gp :: rest) ep ↔
      (∃ ts ∈ gp.2, bucket_epoch ts gp.1 = ep) ∨
        epochTargeted rest ep := by
  unfold epochTargeted
  constructor
  · rintro ⟨p, hp, hts⟩
    rcases List.mem_cons.mp hp with h1 | h1
    · exact Or.inl (h1 ▸ hts)
    · exact Or.inr ⟨p, h1, hts⟩
  · rintro (⟨ts, hts, heq⟩ | ⟨p, hp, hts⟩)
    · exact ⟨gp, List.mem_cons_self gp rest, ts, hts, heq⟩
    · exact ⟨p, List.mem_cons_of_mem gp hp, hts⟩

theorem TabsNodup_activeFold (active : List (Nat × List Nat))
    (s : Store Int) (models keys : List Nat) (envs : List EnvId)
    (h : TabsNodup s) :
    TabsNodup (active.foldl (fun s gp => models.foldl (fun s model =>
      keys.foldl (fun s key => envs.foldl (fun s env =>
        setL s model (popEpochs gp.1 gp.2 (midOf s model) (key, env))) s)
      s) s) s) := by
  induction active generalizing s with
  | nil => exact h
  | cons gp rest ih =>
      rw [List.foldl_cons]
      exact ih _ (TabsNodup_modelsFold gp.1 gp.2 s models keys envs h)

theorem storeGet_delete_activeFold (active : List (Nat × List Nat))
    (s : Store Int) (models keys : List Nat) (envs : List EnvId) (m2 : Nat)
    (ke2 : BKey) (ep2 : Nat) (h : TabsNodup s) :
    storeGet 0 (active.foldl (fun s gp => models.foldl (fun s model =>
        keys.foldl (fun s key => envs.foldl (fun s env =>
          setL s model (popEpochs gp.1 gp.2 (midOf s model) (key, env))) s)
        s) s) s) m2 ke2 ep2 =
      if m2 ∈ models ∧ ke2.1 ∈ keys ∧ ke2.2 ∈ envs ∧
          epochTargeted active ep2
      then 0 else storeGet 0 s m2 ke2 ep2 := by
  induction active generalizing s with
  | nil => simp [epochTargeted]
  | cons gp rest ih =>
      rw [List.foldl_cons,
        ih _ (TabsNodup_modelsFold gp.1 gp.2 s models keys envs h),
        storeGet_delete_modelsFold gp.1 gp.2 s models keys envs m2 ke2
          ep2 h]
      by_cases hc : m2 ∈ models ∧ ke2.1 ∈ keys ∧ ke2.2 ∈ envs ∧
          epochTargeted (gp :: rest) ep2
      · rw [if_pos hc]
        obtain ⟨h1, h2, h3, h4⟩ := hc
        rcases (epochTargeted_cons gp rest ep2).mp h4 with h5 | h5
        · rw [if_pos (⟨h1, h2, h3, h5⟩ :
            m2 ∈ models ∧ ke2.1 ∈ keys ∧ ke2.2 ∈ envs ∧
              ∃ ts ∈ gp.2, bucket_epoch ts gp.1 = ep2), ite_self]
        · rw [if_pos ⟨h1, h2, h3, h5⟩]
      · rw [if_neg hc,
          if_neg (fun hcr => hc ⟨hcr.1, hcr.2.1, hcr.2.2.1,
            (epochTargeted_cons gp rest ep2).mpr (Or.inr hcr.2.2.2)⟩),
          if_neg (fun hcg => hc ⟨hcg.1, hcg.2.1, hcg.2.2.1,
            (epochTargeted_cons gp rest ep2).mpr (Or.inl hcg.2.2.2)⟩)]

/-- C7 counterexample: after `incr` under environment id 5, a `delete` over
the covering range without explicit environment ids leaves the
environment-5 bucket at its old value (only the aggregate bucket is
cleared), refuting "for the aggregate and all environment ids encountered
in prior writes". -/
theorem c7_delete_env_counterexample :
    storeGet 0 (delete (incr (initTSDB [(10, 10)]) 0 1 105 1 (some 5))
        [0] [1] (some 100) (some 110) 0 none).data 0 (1, some 5) 100 = 1 ∧
    storeGet 0 (delete (incr (initTSDB [(10, 10)]) 0 1 105 1 (some 5))
        [0] [1] (some 100) (some 110) 0 none).data 0 (1, none) 100 = 0 ∧
    storeGet 0 (incr (initTSDB [(10, 10)]) 0 1 105 1 (some 5)).data 0
        (1, some 5) 100 = 1 := by
  refine ⟨by decide, by decide, by decide⟩

/-- C7 (amended): a counter delete clears, at every granularity of the
active series, exactly the buckets covering the given range (or instant),
for every (kind, key) pair, for the aggregate environment and the
explicitly passed environment ids — not for other environment ids
encountered in prior writes; buckets outside the range, for other
coordinates, or for other environments keep their values, and deleting
missing buckets is a value-level no-op. -/
theorem c7_delete_clears_targeted_range (t : InMemoryTSDB)
    (models keys : List Nat) (start stop : Option Nat) (timestamp : Nat)
    (ids : Option (List Nat)) (model key : Nat) (env : EnvId) (ep : Nat)
    (h : TabsNodup t.data) :
    storeGet 0 (delete t models keys start stop timestamp ids).data model
        (key, env) ep =
      if model ∈ models ∧ key ∈ keys ∧ env ∈ envIdSet ids ∧
          epochTargeted (get_active_series t.rollups start stop timestamp)
            ep
      then 0 else storeGet 0 t.data model (key, env) ep := by
  simp only [delete]
  rw [storeGet_delete_activeFold
    (get_active_series t.rollups start stop timestamp) t.data models keys
    (envIdSet ids) model (key, env) ep h]

/-- Witness for C7's amended theorem: a concrete state with a write under
environment 5; the delete zeroes the aggregate bucket of the covered epoch
per the characterization. -/
theorem c7_delete_clears_targeted_range_witness :
    TabsNodup (incr (initTSDB [(10, 10)]) 0 1 105 1 (some 5)).data ∧
    storeGet 0 (delete (incr (initTSDB [(10, 10)]) 0 1 105 1 (some 5))
        [0] [1] (some 100) (some 110) 0 none).data 0 (1, none) 100 =
      (if (0 : Nat) ∈ [0] ∧ (1 : Nat) ∈ [1] ∧
          (none : EnvId) ∈ envIdSet none ∧
          epochTargeted (get_active_series
            (incr (initTSDB [(10, 10)]) 0 1 105 1 (some 5)).rollups
            (some 100) (some 110) 0) 100
      then 0
      else storeGet 0 (incr (initTSDB [(10, 10)]) 0 1 105 1
        (some 5)).data 0 (1, none) 100) :=
  ⟨by decide,
    c7_delete_clears_targeted_range
      (incr (initTSDB [(10, 10)]) 0 1 105 1 (some 5)) [0] [1] (some 100)
      (some 110) 0 none 0 1 none 100 (by decide)⟩

theorem envSumC_setL_none (mid : Mid Int) (k : Nat)
    (tab : List (Nat × Int)) (k2 ep2 : Nat) :
    envSumC (setL mid (k, none) tab) k2 ep2 = envSumC mid k2 ep2 := by
  unfold envSumC
  rw [envsOfMid_setL_none]
  refine Finset.sum_congr rfl (fun x _ => ?_)
  rw [envVal_setL, if_neg (by intro hh; simp at hh)]

theorem envSumC_setL_some (mid : Mid Int) (key e : Nat)
    (tab : List (Nat × Int)) (k2 ep2 : Nat) :
    envSumC (setL mid (key, some e) tab) k2 ep2 =
      if key = k2 then
        envSumC mid k2 ep2 +
          ((lookupL tab ep2).getD 0 - envVal 0 mid k2 e ep2)
      else envSumC mid k2 ep2 := by
  unfold envSumC
  rw [envsOfMid_setL_some]
  by_cases h : key = k2
  · subst h
    rw [if_pos rfl, if_pos rfl]
    have hterm : ∀ x ∈ insert e (envsOfMid mid key),
        envVal 0 (setL mid (key, some e) tab) key x ep2 =
          envVal 0 mid key x ep2 +
            (if x = e then
              (lookupL tab ep2).getD 0 - envVal 0 mid key e ep2
            else 0) := by
      intro x _
      rw [envVal_setL]
      by_cases hx : x = e
      · subst hx
        rw [if_pos rfl, if_pos rfl]
        ring
      · rw [if_neg (by
            intro hh
            simp only [Prod.mk.injEq, Option.some.injEq] at hh
            exact hx hh.2),
          if_neg hx, add_zero]
    rw [Finset.sum_congr rfl hterm, Finset.sum_add_distrib,
      Finset.sum_ite_eq' (insert e (envsOfMid mid key)) e
        (fun _ => (lookupL tab ep2).getD 0 - envVal 0 mid key e ep2),
      if_pos (Finset.mem_insert_self e _)]
    by_cases he : e ∈ envsOfMid mid key
    · rw [Finset.insert_eq_self.mpr he]
    · rw [Finset.sum_insert he, envVal_eq_dflt_of_not_mem 0 mid key e ep2
        he, zero_add]
  · rw [if_neg h, if_neg h]
    refine Finset.sum_congr rfl (fun x _ => ?_)
    rw [envVal_setL, if_neg (by
      intro hh
      simp only [Prod.mk.injEq] at hh
      exact h hh.1.symm)]

theorem counter_pair_agg (s : Store Int) (model key ep : Nat) (e : Nat)
    (c : Int) (m2 k2 ep2 : Nat) :
    storeGet 0 (storeUpd 0 (· + c) (storeUpd 0 (· + c) s model
        (key, some e) ep) model (key, none) ep) m2 (k2, none) ep2 =
      storeGet 0 s m2 (k2, none) ep2 +
        (if m2 = model ∧ k2 = key ∧ ep2 = ep then c else 0) := by
  have hinner : ∀ m3 k3 ep3,
      storeGet 0 (storeUpd 0 (· + c) s model (key, some e) ep) m3
        (k3, none) ep3 = storeGet 0 s m3 (k3, none) ep3 := by
    intro m3 k3 ep3
    rw [storeGet_storeUpd, if_neg (by
      rintro ⟨-, hb, -⟩
      simp at hb)]
  rw [storeGet_storeUpd]
  by_cases hc : m2 = model ∧ ((k2, none) : BKey) = (key, none) ∧ ep2 = ep
  · have hk2 : k2 = key := by
      have := hc.2.1
      simp only [Prod.mk.injEq] at this
      exact this.1
    rw [if_pos hc, hinner, if_pos ⟨hc.1, hk2, hc.2.2⟩]
    obtain ⟨h1, h2, h3⟩ := hc
    subst h1; subst h3; subst hk2
    rfl
  · rw [if_neg hc, hinner, if_neg (by
      rintro ⟨ha, hb, hcx⟩
      exact hc ⟨ha, by rw [hb], hcx⟩), add_zero]

theorem counter_pair_envSum (s : Store Int) (model key ep : Nat) (e : Nat)
    (c : Int) (m2 k2 ep2 : Nat) :
    envSumC (midOf (storeUpd 0 (· + c) (storeUpd 0 (· + c) s model
        (key, some e) ep) model (key, none) ep) m2) k2 ep2 =
      envSumC (midOf s m2) k2 ep2 +
        (if m2 = model ∧ k2 = key ∧ ep2 = ep then c else 0) := by
  rw [midOf_storeUpd]
  by_cases hm : m2 = model
  · rw [if_pos hm, envSumC_setL_none, midOf_storeUpd, if_pos rfl,
      envSumC_setL_some]
    have hupd : lookupL (setL (getdL ((lookupL (midOf s model)
        (key, some e)).getD []) ep 0).2 ep
        ((getdL ((lookupL (midOf s model) (key, some e)).getD [])
          ep 0).1 + c)) ep2 =
        if ep2 = ep then
          some ((lookupL ((lookupL (midOf s model)
            (key, some e)).getD []) ep).getD 0 + c)
        else lookupL ((lookupL (midOf s model) (key, some e)).getD [])
          ep2 :=
      lookupL_updTab _ ep 0 (· + c) ep2
    rw [hupd]
    by_cases hk : key = k2
    · subst hk
      rw [if_pos rfl]
      by_cases hep : ep2 = ep
      · subst hep
        rw [if_pos rfl, if_pos ⟨hm, rfl, rfl⟩]
        subst hm
        simp only [envVal, Option.getD_some]
        ring
      · rw [if_neg hep, if_neg (fun hcc => hep hcc.2.2)]
        subst hm
        simp only [envVal]
        ring
    · rw [if_neg hk, if_neg (fun hcc => hk hcc.2.1.symm), add_zero]
      subst hm
      rfl
  · rw [if_neg hm, midOf_storeUpd, if_neg hm,
      if_neg (fun hcc => hm hcc.1), add_zero]

theorem counterInv_pair (s : Store Int) (model key ep : Nat) (e : Nat)
    (c : Int) (h : counterInv s) :
    counterInv (storeUpd 0 (· + c) (storeUpd 0 (· + c) s model
      (key, some e) ep) model (key, none) ep) := by
  intro m2 k2 ep2
  rw [counter_pair_agg, counter_pair_envSum, h m2 k2 ep2]

theorem counterInv_incr (d : Store Int) (rollups : List (Nat × Nat))
    (model key ts : Nat) (c : Int) (e : Nat) (h : counterInv d) :
    counterInv (rollups.foldl (fun s p =>
      (writeEnvs (some e)).foldl (fun s e2 =>
        storeUpd 0 (· + c) s model (key, e2) (bucket_epoch ts p.1)) s)
      d) := by
  induction rollups generalizing d with
  | nil => exact h
  | cons p rest ih =>
      rw [List.foldl_cons]
      exact ih _ (counterInv_pair d model key (bucket_epoch ts p.1) e c h)

theorem envUnionS_setL_none (mid : Mid (Finset Nat)) (k : Nat)
    (tab : List (Nat × Finset Nat)) (k2 ep2 : Nat) :
    envUnionS (setL mid (k, none) tab) k2 ep2 = envUnionS mid k2 ep2 := by
  unfold envUnionS
  rw [envsOfMid_setL_none]
  refine Finset.sup_congr rfl (fun x _ => ?_)
  rw [envVal_setL, if_neg (by intro hh; simp at hh)]

theorem envUnionS_setL_some_upd (mid : Mid (Finset Nat)) (key e : Nat)
    (v : Finset Nat) (ep k2 ep2 : Nat) :
    envUnionS (setL mid (key, some e)
        (setL (getdL ((lookupL mid (key, some e)).getD []) ep ∅).2 ep
          ((getdL ((lookupL mid (key, some e)).getD []) ep ∅).1 ∪ v))) k2
        ep2 =
      if key = k2 ∧ ep2 = ep then envUnionS mid k2 ep2 ∪ v
      else envUnionS mid k2 ep2 := by
  have hupd : lookupL (setL (getdL ((lookupL mid (key, some e)).getD [])
      ep ∅).2 ep
      ((getdL ((lookupL mid (key, some e)).getD []) ep ∅).1 ∪ v)) ep2 =
      if ep2 = ep then
        some ((lookupL ((lookupL mid (key, some e)).getD []) ep).getD ∅
          ∪ v)
      else lookupL ((lookupL mid (key, some e)).getD []) ep2 :=
    lookupL_updTab _ ep ∅ (· ∪ v) ep2
  unfold envUnionS
  rw [envsOfMid_setL_some]
  by_cases hk : key = k2
  · subst hk
    rw [if_pos rfl]
    by_cases hep : ep2 = ep
    · subst hep
      rw [if_pos ⟨rfl, rfl⟩]
      ext a
      rw [Finset.mem_union]
      simp only [Finset.mem_sup]
      constructor
      · rintro ⟨x, hx, ha⟩
        rw [envVal_setL] at ha
        by_cases hxe : ((key, some x) : BKey) = (key, some e)
        · rw [if_pos hxe, hupd, if_pos rfl, Option.getD_some] at ha
          rcases Finset.mem_union.mp ha with ha1 | ha1
          · by_cases he : e ∈ envsOfMid mid key
            · exact Or.inl ⟨e, he, ha1⟩
            · rw [show ((lookupL ((lookupL mid (key, some e)).getD [])
                  ep2).getD ∅ : Finset Nat) = envVal ∅ mid key e ep2 from
                  rfl,
                envVal_eq_dflt_of_not_mem ∅ mid key e ep2 he] at ha1
              exact absurd ha1 (Finset.not_mem_empty a)
          · exact Or.inr ha1
        · rw [if_neg hxe] at ha
          have hxS : x ∈ envsOfMid mid key := by
            rcases Finset.mem_insert.mp hx with h1 | h1
            · exact absurd (by rw [h1]) hxe
            · exact h1
          exact Or.inl ⟨x, hxS, ha⟩
      · rintro (⟨x, hxS, ha⟩ | ha)
        · refine ⟨x, Finset.mem_insert_of_mem hxS, ?_⟩
          rw [envVal_setL]
          by_cases hxe : ((key, some x) : BKey) = (key, some e)
          · rw [if_pos hxe, hupd, if_pos rfl, Option.getD_some]
            have hxeq : x = e := by
              simp only [Prod.mk.injEq, Option.some.injEq] at hxe
              exact hxe.2
            subst hxeq
            exact Finset.mem_union_left v ha
          · rw [if_neg hxe]
            exact ha
        · refine ⟨e, Finset.mem_insert_self e _, ?_⟩
          rw [envVal_setL, if_pos rfl, hupd, if_pos rfl, Option.getD_some]
          exact Finset.mem_union_right _ ha
    · rw [if_neg (fun hcc => hep hcc.2)]
      have hterm : ∀ x ∈ insert e (envsOfMid mid key),
          envVal ∅ (setL mid (key, some e)
            (setL (getdL ((lookupL mid (key, some e)).getD []) ep ∅).2 ep
              ((getdL ((lookupL mid (key, some e)).getD []) ep ∅).1
                ∪ v))) key x ep2 = envVal ∅ mid key x ep2 := by
        intro x _
        rw [envVal_setL]
        by_cases hxe : ((key, some x) : BKey) = (key, some e)
        · rw [if_pos hxe, hupd, if_neg hep]
          have hxeq : x = e := by
            simp only [Prod.mk.injEq, Option.some.injEq] at hxe
            exact hxe.2
          subst hxeq
          rfl
        · rw [if_neg hxe]
      rw [Finset.sup_congr rfl hterm, Finset.sup_insert]
      by_cases he : e ∈ envsOfMid mid key
      · exact sup_eq_right.mpr
          (Finset.le_sup (f := fun a => envVal ∅ mid key a ep2) he)
      · rw [envVal_eq_dflt_of_not_mem ∅ mid key e ep2 he,
          ← Finset.bot_eq_empty, bot_sup_eq]
  · rw [if_neg hk, if_neg (fun hcc => hk hcc.1)]
    refine Finset.sup_congr rfl (fun x _ => ?_)
    rw [envVal_setL, if_neg (by
      intro hh
      simp only [Prod.mk.injEq] at hh
      exact hk hh.1.symm)]

theorem set_pair_agg (s : Store (Finset Nat)) (model key ep : Nat)
    (e : Nat) (v : Finset Nat) (m2 k2 ep2 : Nat) :
    storeGet ∅ (storeUpd ∅ (· ∪ v) (storeUpd ∅ (· ∪ v) s model
        (key, some e) ep) model (key, none) ep) m2 (k2, none) ep2 =
      if m2 = model ∧ k2 = key ∧ ep2 = ep
      then storeGet ∅ s m2 (k2, none) ep2 ∪ v
      else storeGet ∅ s m2 (k2, none) ep2 := by
  have hinner : ∀ m3 k3 ep3,
      storeGet ∅ (storeUpd ∅ (· ∪ v) s model (key, some e) ep) m3
        (k3, none) ep3 = storeGet ∅ s m3 (k3, none) ep3 := by
    intro m3 k3 ep3
    rw [storeGet_storeUpd, if_neg (by
      rintro ⟨-, hb, -⟩
      simp at hb)]
  rw [storeGet_storeUpd]
  by_cases hc : m2 = model ∧ ((k2, none) : BKey) = (key, none) ∧ ep2 = ep
  · have hk2 : k2 = key := by
      have := hc.2.1
      simp only [Prod.mk.injEq] at this
      exact this.1
    rw [if_pos hc, hinner, if_pos ⟨hc.1, hk2, hc.2.2⟩]
    obtain ⟨h1, h2, h3⟩ := hc
    subst h1; subst h3; subst hk2
    rfl
  · rw [if_neg hc, hinner, if_neg (by
      rintro ⟨ha, hb, hcx⟩
      exact hc ⟨ha, by rw [hb], hcx⟩)]

theorem set_pair_envUnion (s : Store (Finset Nat)) (model key ep : Nat)
    (e : Nat) (v : Finset Nat) (m2 k2 ep2 : Nat) :
    envUnionS (midOf (storeUpd ∅ (· ∪ v) (storeUpd ∅ (· ∪ v) s model
        (key, some e) ep) model (key, none) ep) m2) k2 ep2 =
      if m2 = model ∧ k2 = key ∧ ep2 = ep
      then envUnionS (midOf s m2) k2 ep2 ∪ v
      else envUnionS (midOf s m2) k2 ep2 := by
  rw [midOf_storeUpd]
  by_cases hm : m2 = model
  · rw [if_pos hm, envUnionS_setL_none, midOf_storeUpd, if_pos rfl,
      envUnionS_setL_some_upd]
    subst hm
    by_cases hc : key = k2 ∧ ep2 = ep
    · rw [if_pos hc, if_pos ⟨rfl, hc.1.symm, hc.2⟩]
    · rw [if_neg hc, if_neg (fun hcc => hc ⟨hcc.2.1.symm, hcc.2.2⟩)]
  · rw [if_neg hm, midOf_storeUpd, if_neg hm,
      if_neg (fun hcc => hm hcc.1)]

theorem setInv_pair (s : Store (Finset Nat)) (model key ep : Nat) (e : Nat)
    (v : Finset Nat) (h : setInv s) :
    setInv (storeUpd ∅ (· ∪ v) (storeUpd ∅ (· ∪ v) s model (key, some e)
      ep) model (key, none) ep) := by
  intro m2 k2 ep2
  rw [set_pair_agg, set_pair_envUnion, h m2 k2 ep2]

theorem setInv_record (d : Store (Finset Nat)) (rollups : List (Nat × Nat))
    (model key ts : Nat) (v : Finset Nat) (e : Nat) (h : setInv d) :
    setInv (rollups.foldl (fun s p =>
      (writeEnvs (some e)).foldl (fun s e2 =>
        storeUpd ∅ (· ∪ v) s model (key, e2) (bucket_epoch ts p.1)) s)
      d) := by
  induction rollups generalizing d with
  | nil => exact h
  | cons p rest ih =>
      rw [List.foldl_cons]
      exact ih _ (setInv_pair d model key (bucket_epoch ts p.1) e v h)

theorem ctrUpdate_lookup (c : List (Nat × Rat)) (items : List (Nat × Rat))
    (mem : Nat) :
    (lookupL (ctrUpdate c items) mem).getD 0 =
      (lookupL c mem).getD 0 + itemsTotal items mem := by
  induction items generalizing c with
  | nil => simp [ctrUpdate, itemsTotal]
  | cons p rest ih =>
      show (lookupL (ctrUpdate (setL (getdL c p.1 0).2 p.1
        ((getdL c p.1 0).1 + p.2)) rest) mem).getD 0 = _
      rw [ih]
      have hupd : lookupL (setL (getdL c p.1 0).2 p.1
          ((getdL c p.1 0).1 + p.2)) mem =
          if mem = p.1 then some ((lookupL c p.1).getD 0 + p.2)
          else lookupL c mem :=
        lookupL_updTab c p.1 0 (· + p.2) mem
      rw [hupd]
      have hitems : itemsTotal (p :: rest) mem =
          (if p.1 = mem then p.2 else 0) + itemsTotal rest mem := by
        unfold itemsTotal
        rw [List.filter_cons]
        by_cases hp : p.1 = mem
        · rw [if_pos (decide_eq_true hp), if_pos hp, List.map_cons,
            List.sum_cons]
        · rw [if_neg (by simp [hp]), if_neg hp, zero_add]
      rw [hitems]
      by_cases hmem : mem = p.1
      · rw [if_pos hmem, Option.getD_some, if_pos hmem.symm]
        subst hmem
        ring
      · rw [if_neg hmem, if_neg (fun h => hmem h.symm), zero_add]

theorem envSumF_setL_none (mid : Mid (List (Nat × Rat))) (k : Nat)
    (tab : List (Nat × List (Nat × Rat))) (k2 ep2 mem : Nat) :
    envSumF (setL mid (k, none) tab) k2 ep2 mem =
      envSumF mid k2 ep2 mem := by
  unfold envSumF
  rw [envsOfMid_setL_none]
  refine Finset.sum_congr rfl (fun x _ => ?_)
  rw [envVal_setL, if_neg (by intro hh; simp at hh)]

theorem envSumF_setL_some (mid : Mid (List (Nat × Rat))) (key e : Nat)
    (tab : List (Nat × List (Nat × Rat))) (k2 ep2 mem : Nat) :
    envSumF (setL mid (key, some e) tab) k2 ep2 mem =
      if key = k2 then
        envSumF mid k2 ep2 mem +
          ((lookupL ((lookupL tab ep2).getD []) mem).getD 0 -
            (lookupL (envVal [] mid k2 e ep2) mem).getD 0)
      else envSumF mid k2 ep2 mem := by
  unfold envSumF
  rw [envsOfMid_setL_some]
  by_cases h : key = k2
  · subst h
    rw [if_pos rfl, if_pos rfl]
    have hterm : ∀ x ∈ insert e (envsOfMid mid key),
        (lookupL (envVal [] (setL mid (key, some e) tab) key x ep2)
          mem).getD 0 =
          (lookupL (envVal [] mid key x ep2) mem).getD 0 +
            (if x = e then
              (lookupL ((lookupL tab ep2).getD []) mem).getD 0 -
                (lookupL (envVal [] mid key e ep2) mem).getD 0
            else 0) := by
      intro x _
      rw [envVal_setL]
      by_cases hx : x = e
      · subst hx
        rw [if_pos rfl, if_pos rfl]
        ring
      · rw [if_neg (by
            intro hh
            simp only [Prod.mk.injEq, Option.some.injEq] at hh
            exact hx hh.2),
          if_neg hx, add_zero]
    rw [Finset.sum_congr rfl hterm, Finset.sum_add_distrib,
      Finset.sum_ite_eq' (insert e (envsOfMid mid key)) e
        (fun _ => (lookupL ((lookupL tab ep2).getD []) mem).getD 0 -
          (lookupL (envVal [] mid key e ep2) mem).getD 0),
      if_pos (Finset.mem_insert_self e _)]
    by_cases he : e ∈ envsOfMid mid key
    · rw [Finset.insert_eq_self.mpr he]
    · rw [Finset.sum_insert he, envVal_eq_dflt_of_not_mem [] mid key e ep2
        he]
      simp only [lookupL, Option.getD_none, zero_add]
  · rw [if_neg h, if_neg h]
    refine Finset.sum_congr rfl (fun x _ => ?_)
    rw [envVal_setL, if_neg (by
      intro hh
      simp only [Prod.mk.injEq] at hh
      exact h hh.1.symm)]

theorem freq_upd_val (s : Store (List (Nat × Rat))) (model : Nat)
    (ke : BKey) (ep : Nat) (items : List (Nat × Rat)) (m2 : Nat)
    (ke2 : BKey) (ep2 mem : Nat) :
    freqVal (storeUpd [] (fun cc => ctrUpdate cc items) s model ke ep) m2
        ke2 ep2 mem =
      freqVal s m2 ke2 ep2 mem +
        (if m2 = model ∧ ke2 = ke ∧ ep2 = ep then itemsTotal items mem
         else 0) := by
  unfold freqVal
  rw [storeGet_storeUpd]
  by_cases hc : m2 = model ∧ ke2 = ke ∧ ep2 = ep
  · rw [if_pos hc, if_pos hc, ctrUpdate_lookup]
    obtain ⟨h1, h2, h3⟩ := hc
    subst h1; subst h2; subst h3
    rfl
  · rw [if_neg hc, if_neg hc, add_zero]

theorem freq_upd_envSum (s : Store (List (Nat × Rat))) (model key e : Nat)
    (ep : Nat) (items : List (Nat × Rat)) (m2 k2 ep2 mem : Nat) :
    envSumF (midOf (storeUpd [] (fun cc => ctrUpdate cc items) s model
        (key, some e) ep) m2) k2 ep2 mem =
      envSumF (midOf s m2) k2 ep2 mem +
        (if m2 = model ∧ k2 = key ∧ ep2 = ep then itemsTotal items mem
         else 0) := by
  rw [midOf_storeUpd]
  by_cases hm : m2 = model
  · rw [if_pos hm, envSumF_setL_some]
    have hupd : lookupL (setL (getdL ((lookupL (midOf s model)
        (key, some e)).getD []) ep []).2 ep
        (ctrUpdate (getdL ((lookupL (midOf s model)
          (key, some e)).getD []) ep []).1 items)) ep2 =
        if ep2 = ep then
          some (ctrUpdate ((lookupL ((lookupL (midOf s model)
            (key, some e)).getD []) ep).getD []) items)
        else lookupL ((lookupL (midOf s model) (key, some e)).getD [])
          ep2 :=
      lookupL_updTab _ ep [] (fun cc => ctrUpdate cc items) ep2
    rw [hupd]
    by_cases hk : key = k2
    · subst hk
      rw [if_pos rfl]
      by_cases hep : ep2 = ep
      · subst hep
        rw [if_pos rfl, Option.getD_some, ctrUpdate_lookup,
          if_pos ⟨hm, rfl, rfl⟩]
        subst hm
        simp only [envVal]
        ring
      · rw [if_neg hep, if_neg (fun hcc => hep hcc.2.2)]
        subst hm
        simp only [envVal]
        ring
    · rw [if_neg hk, if_neg (fun hcc => hk hcc.2.1.symm), add_zero]
      subst hm
      rfl
  · rw [if_neg hm, if_neg (fun hcc => hm hcc.1), add_zero]

theorem freq_updNone_envSum (s : Store (List (Nat × Rat)))
    (model key ep : Nat) (items : List (Nat × Rat)) (m2 k2 ep2 mem : Nat) :
    envSumF (midOf (storeUpd [] (fun cc => ctrUpdate cc items) s model
        (key, none) ep) m2) k2 ep2 mem =
      envSumF (midOf s m2) k2 ep2 mem := by
  rw [midOf_storeUpd]
  by_cases hm : m2 = model
  · rw [if_pos hm, envSumF_setL_none]
    subst hm
    rfl
  · rw [if_neg hm]

theorem freq_rollFold_val (rollups : List (Nat × Nat))
    (s : Store (List (Nat × Rat))) (model : Nat) (ke : BKey) (ts : Nat)
    (items : List (Nat × Rat)) (m2 : Nat) (ke2 : BKey) (ep2 mem : Nat) :
    freqVal (rollups.foldl (fun s p =>
        storeUpd [] (fun cc => ctrUpdate cc items) s model ke
          (bucket_epoch ts p.1)) s) m2 ke2 ep2 mem =
      freqVal s m2 ke2 ep2 mem +
        (if m2 = model ∧ ke2 = ke then
          (rollTotal rollups ts ep2 : Rat) * itemsTotal items mem
         else 0) := by
  induction rollups generalizing s with
  | nil => simp [rollTotal]
  | cons p rest ih =>
      rw [List.foldl_cons, ih, freq_upd_val]
      by_cases hc : m2 = model ∧ ke2 = ke
      · rw [if_pos hc, if_pos hc]
        have hcons : (rollTotal (p :: rest) ts ep2 : Rat) =
            (if bucket_epoch ts p.1 = ep2 then 1 else 0) +
              (rollTotal rest ts ep2 : Rat) := by
          unfold rollTotal
          rw [List.filter_cons]
          by_cases hb : bucket_epoch ts p.1 = ep2
          · rw [if_pos (decide_eq_true hb), if_pos hb, List.length_cons]
            push_cast
            ring
          · rw [if_neg (by simp [hb]), if_neg hb, zero_add]
        rw [hcons]
        by_cases hb : ep2 = bucket_epoch ts p.1
        · rw [if_pos ⟨hc.1, hc.2, hb⟩, if_pos hb.symm]
          ring
        · rw [if_neg (fun hcc => hb hcc.2.2), if_neg (fun hcc =>
            hb hcc.symm), add_zero, zero_add]
      · rw [if_neg hc, if_neg hc,
          if_neg (fun hcc => hc ⟨hcc.1, hcc.2.1⟩), add_zero, add_zero]

theorem freq_rollFold_envSum (rollups : List (Nat × Nat))
    (s : Store (List (Nat × Rat))) (model key e ts : Nat)
    (items : List (Nat × Rat)) (m2 k2 ep2 mem : Nat) :
    envSumF (midOf (rollups.foldl (fun s p =>
        storeUpd [] (fun cc => ctrUpdate cc items) s model (key, some e)
          (bucket_epoch ts p.1)) s) m2) k2 ep2 mem =
      envSumF (midOf s m2) k2 ep2 mem +
        (if m2 = model ∧ k2 = key then
          (rollTotal rollups ts ep2 : Rat) * itemsTotal items mem
         else 0) := by
  induction rollups generalizing s with
  | nil => simp [rollTotal]
  | cons p rest ih =>
      rw [List.foldl_cons, ih, freq_upd_envSum]
      by_cases hc : m2 = model ∧ k2 = key
      · rw [if_pos hc, if_pos hc]
        have hcons : (rollTotal (p :: rest) ts ep2 : Rat) =
            (if bucket_epoch ts p.1 = ep2 then 1 else 0) +
              (rollTotal rest ts ep2 : Rat) := by
          unfold rollTotal
          rw [List.filter_cons]
          by_cases hb : bucket_epoch ts p.1 = ep2
          · rw [if_pos (decide_eq_true hb), if_pos hb, List.length_cons]
            push_cast
            ring
          · rw [if_neg (by simp [hb]), if_neg hb, zero_add]
        rw [hcons]
        by_cases hb : ep2 = bucket_epoch ts p.1
        · rw [if_pos ⟨hc.1, hc.2, hb⟩, if_pos hb.symm]
          ring
        · rw [if_neg (fun hcc => hb hcc.2.2), if_neg (fun hcc =>
            hb hcc.symm), add_zero, zero_add]
      · rw [if_neg hc, if_neg hc,
          if_neg (fun hcc => hc ⟨hcc.1, hcc.2.1⟩), add_zero, add_zero]

theorem freq_rollFoldNone_envSum (rollups : List (Nat × Nat))
    (s : Store (List (Nat × Rat))) (model key ts : Nat)
    (items : List (Nat × Rat)) (m2 k2 ep2 mem : Nat) :
    envSumF (midOf (rollups.foldl (fun s p =>
        storeUpd [] (fun cc => ctrUpdate cc items) s model (key, none)
          (bucket_epoch ts p.1)) s) m2) k2 ep2 mem =
      envSumF (midOf s m2) k2 ep2 mem := by
  induction rollups generalizing s with
  | nil => rfl
  | cons p rest ih =>
      rw [List.foldl_cons, ih, freq_updNone_envSum]

theorem freqInv_unit (d : Store (List (Nat × Rat)))
    (rollups : List (Nat × Nat)) (model key ts : Nat)
    (items : List (Nat × Rat)) (e : Nat) (h : freqInv d) :
    freqInv ((writeEnvs (some e)).foldl (fun s e2 =>
      rollups.foldl (fun s p =>
        storeUpd [] (fun cc => ctrUpdate cc items) s model (key, e2)
          (bucket_epoch ts p.1)) s) d) := by
  intro m2 k2 ep2 mem
  have hfold : (writeEnvs (some e)).foldl (fun s e2 =>
      rollups.foldl (fun s p =>
        storeUpd [] (fun cc => ctrUpdate cc items) s model (key, e2)
          (bucket_epoch ts p.1)) s) d =
      rollups.foldl (fun s p =>
        storeUpd [] (fun cc => ctrUpdate cc items) s model (key, none)
          (bucket_epoch ts p.1))
        (rollups.foldl (fun s p =>
          storeUpd [] (fun cc => ctrUpdate cc items) s model (key, some e)
            (bucket_epoch ts p.1)) d) := rfl
  rw [hfold, freq_rollFold_val, freq_rollFold_val, freq_rollFoldNone_envSum,
    freq_rollFold_envSum, h m2 k2 ep2 mem]
  rw [if_neg (by
    rintro ⟨-, hb⟩
    simp at hb)]
  by_cases hc : m2 = model ∧ k2 = key
  · rw [if_pos hc, if_pos ⟨hc.1, by rw [hc.2]⟩]
    ring
  · rw [if_neg hc,
      if_neg (fun hcc => hc ⟨hcc.1, congrArg Prod.fst hcc.2⟩)]
    ring

theorem freqInv_kvFold (d : Store (List (Nat × Rat)))
    (rollups : List (Nat × Nat)) (model : Nat)
    (kvs : List (Nat × List (Nat × Rat))) (ts e : Nat) (h : freqInv d) :
    freqInv (kvs.foldl (fun s kv =>
      (writeEnvs (some e)).foldl (fun s e2 =>
        rollups.foldl
          (fun s p => storeUpd [] (fun c => ctrUpdate c kv.2) s model
            (kv.1, e2) (bucket_epoch ts p.1)) s) s) d) := by
  induction kvs generalizing d with
  | nil => exact h
  | cons kv rest ih =>
      rw [List.foldl_cons]
      exact ih _ (freqInv_unit d rollups model kv.1 ts kv.2 e h)

theorem freqInv_rfm (d : Store (List (Nat × Rat)))
    (rollups : List (Nat × Nat))
    (requests : List (Nat × List (Nat × List (Nat × Rat)))) (ts e : Nat)
    (h : freqInv d) :
    freqInv (requests.foldl (fun s req =>
      req.2.foldl (fun s kv =>
        (writeEnvs (some e)).foldl (fun s e2 =>
          rollups.foldl
            (fun s p => storeUpd [] (fun c => ctrUpdate c kv.2) s req.1
              (kv.1, e2) (bucket_epoch ts p.1)) s) s) s) d) := by
  induction requests generalizing d with
  | nil => exact h
  | cons req rest ih =>
      rw [List.foldl_cons]
      exact ih _ (freqInv_kvFold d rollups req.1 req.2 ts e h)

theorem aggInvariant_applyOp (t : InMemoryTSDB) (op : WOp)
    (h : aggInvariant t) : aggInvariant (applyOp t op) := by
  obtain ⟨hc, hs, hf⟩ := h
  cases op with
  | incrOp m k ts c e =>
      exact ⟨counterInv_incr t.data t.rollups m k ts c e hc, hs, hf⟩
  | recordOp m k v ts e =>
      exact ⟨hc, setInv_record t.sets t.rollups m k ts v e hs, hf⟩
  | freqOp reqs ts e =>
      exact ⟨hc, hs, freqInv_rfm t.frequencies t.rollups reqs ts e hf⟩

theorem aggInvariant_applyOps (t : InMemoryTSDB) (ops : List WOp)
    (h : aggInvariant t) : aggInvariant (applyOps t ops) := by
  induction ops generalizing t with
  | nil => exact h
  | cons op rest ih => exact ih _ (aggInvariant_applyOp t op h)

theorem aggInvariant_init (rollups : List (Nat × Nat)) :
    aggInvariant (initTSDB rollups) := by
  refine ⟨?_, ?_, ?_⟩
  · intro model key ep
    simp [initTSDB, flush, storeGet, lookupL, midOf, envSumC, envsOfMid]
  · intro model key ep
    simp [initTSDB, flush, storeGet, lookupL, midOf, envUnionS, envsOfMid]
  · intro model key ep mem
    simp [initTSDB, flush, freqVal, storeGet, lookupL, midOf, envSumF,
      envsOfMid]

/-- C1: starting from a fresh backend, after any sequence of counter
increments (`incr`), set records (`record`) and frequency records
(`record_frequency_multi`) each carrying a concrete environment id, every
aggregate-environment bucket equals the sum (counters), union (sets), or
per-member score sum (frequencies) of the environment-specific buckets at
the same (kind, key, epoch) coordinate — at every point in the sequence,
since the invariant holds after every prefix `applyOps (initTSDB r) ops`. -/
theorem c1_dual_write_invariant (rollups : List (Nat × Nat))
    (ops : List WOp) :
    aggInvariant (applyOps (initTSDB rollups) ops) :=
  aggInvariant_applyOps _ ops (aggInvariant_init rollups)

theorem setL_setL {κ α : Type} [DecidableEq κ] (l : List (κ × α)) (k : κ)
    (v w : α) : setL (setL l k v) k w = setL l k w := by
  induction l with
  | nil => simp [setL]
  | cons p rest ih =>
      by_cases h : p.1 = k
      · simp [setL, h]
      · simp [setL, h, ih]

theorem setL_append_fresh {κ α : Type} [DecidableEq κ] (l : List (κ × α))
    (k : κ) (v : α) (h : k ∉ l.map Prod.fst) :
    setL l k v = l ++ [(k, v)] := by
  induction l with
  | nil => rfl
  | cons p rest ih =>
      simp only [List.map_cons, List.mem_cons] at h
      push_neg at h
      simp only [setL, ih h.2, List.cons_append]
      rw [if_neg (fun hh : p.1 = k => h.1 hh.symm)]

theorem seriesEpochs_pairwise (g start stop : Nat) :
    (seriesEpochs g start stop).Pairwise (· < ·) := by
  unfold seriesEpochs
  split
  · exact List.Pairwise.nil
  · next h =>
      push_neg at h
      refine List.pairwise_map.mpr ?_
      refine (List.pairwise_lt_range _).imp ?_
      intro a b hab
      have hg : 0 < g := Nat.pos_of_ne_zero h.1
      exact Nat.add_lt_add_left (mul_lt_mul_of_pos_right hab hg) _

theorem seriesEpochs_bucket (g start stop : Nat) (hg : 0 < g) :
    ∀ ts ∈ seriesEpochs g start stop, bucket_epoch ts g = ts := by
  intro ts hts
  unfold seriesEpochs at hts
  split at hts
  · cases hts
  · obtain ⟨i, -, hi⟩ := List.mem_map.mp hts
    subst hi
    show (start / g * g + i * g) / g * g = _
    rw [← Nat.add_mul, Nat.mul_div_cancel _ hg]

theorem rangeKeysFold_fst (model : Nat) (env : EnvId) (ep : Nat)
    (keys : List Nat) (init : List (Nat × Nat × Int) × Store Int) :
    (keys.foldl (rangeStep model env ep) init).1 =
      init.1 ++ keys.map (fun k =>
        (ep, k, storeGet 0 init.2 model (k, env) ep)) := by
  induction keys generalizing init with
  | nil => simp
  | cons key rest ih =>
      rw [List.foldl_cons, ih]
      show (init.1 ++ [(ep, key, storeGet 0 init.2 model (key, env) ep)]) ++
          rest.map (fun k => (ep, k,
            storeGet 0 (storeRead 0 init.2 model (key, env) ep).2 model
              (k, env) ep)) = _
      simp only [storeGet_storeRead_snd, List.map_cons, List.append_assoc,
        List.singleton_append]

theorem rangeTriples_store_eq (d1 d2 : Store Int) (model : Nat)
    (keys : List Nat) (env : EnvId) (g : Nat) (series : List Nat)
    (h : ∀ ke ep, storeGet 0 d1 model ke ep = storeGet 0 d2 model ke ep) :
    rangeTriples d1 model keys env g series =
      rangeTriples d2 model keys env g series := by
  induction series with
  | nil => rfl
  | cons ts rest ih => simp only [rangeTriples, ih, h]

theorem rangeFold_fst (model : Nat) (env : EnvId) (g : Nat)
    (keys : List Nat) (series : List Nat)
    (init : List (Nat × Nat × Int) × Store Int) :
    (series.foldl (fun acc ts =>
        keys.foldl (rangeStep model env (bucket_epoch ts g)) acc) init).1 =
      init.1 ++ rangeTriples init.2 model keys env g series := by
  induction series generalizing init with
  | nil => simp [rangeTriples]
  | cons ts rest ih =>
      rw [List.foldl_cons, ih, rangeKeysFold_fst, rangeKeysFold_snd]
      simp only [rangeTriples, List.append_assoc]
      refine congrArg (init.1 ++ ·) (congrArg _ ?_)
      exact rangeTriples_store_eq _ _ model keys env g rest
        (fun ke ep => storeGet_rangeKeysFold init.2 model keys env
          (bucket_epoch ts g) model ke ep)

theorem get_range_fst (t : InMemoryTSDB) (model : Nat) (keys : List Nat)
    (start stop : Nat) (rollup : Option Nat) (env : EnvId) :
    (get_range t model keys start stop rollup env).1 =
      ((rangeTriples t.data model keys env
          (get_optimal_rollup_series t.rollups start stop rollup).1
          (get_optimal_rollup_series t.rollups start stop rollup).2).foldl
        groupStep []).map (fun p => (p.1, sortPairs p.2)) := by
  simp only [get_range]
  rw [rangeFold_fst, List.nil_append]

theorem lookupL_groupStep (rb : List (Nat × List (Nat × Int)))
    (tr : Nat × Nat × Int) (key : Nat) :
    (lookupL (groupStep rb tr) key).getD [] =
      if key = tr.2.1 then
        setL ((lookupL rb tr.2.1).getD []) tr.1 tr.2.2
      else (lookupL rb key).getD [] := by
  unfold groupStep
  rw [lookupL_setL]
  by_cases h : key = tr.2.1
  · rw [if_pos h, if_pos h, Option.getD_some, getdL_fst]
  · rw [if_neg h, if_neg h, lookupL_getdL, if_neg h]

theorem groupFold_lookup (trs : List (Nat × Nat × Int))
    (rb : List (Nat × List (Nat × Int))) (key : Nat) :
    (lookupL (trs.foldl groupStep rb) key).getD [] =
      (trs.filter (fun tr => decide (tr.2.1 = key))).foldl
        (fun tab tr => setL tab tr.1 tr.2.2)
        ((lookupL rb key).getD []) := by
  induction trs generalizing rb with
  | nil => rfl
  | cons tr rest ih =>
      rw [List.foldl_cons, ih, List.filter_cons]
      by_cases h : tr.2.1 = key
      · rw [if_pos (decide_eq_true h), List.foldl_cons, lookupL_groupStep,
          if_pos h.symm, h]
      · rw [if_neg (by simp [h]), lookupL_groupStep,
          if_neg (fun hh => h hh.symm)]

theorem foldl_setL_all_eq (l : List Nat) (key : Nat)
    (hall : ∀ k ∈ l, k = key) (ep : Nat) (v : Nat → Int)
    (tab : List (Nat × Int)) :
    l.foldl (fun tab k => setL tab ep (v k)) tab =
      if l = [] then tab else setL tab ep (v key) := by
  induction l generalizing tab with
  | nil => rfl
  | cons k rest ih =>
      rw [List.foldl_cons, ih (fun x hx => hall x (List.mem_cons_of_mem k hx)),
        hall k (List.mem_cons_self k rest),
        if_neg (List.cons_ne_nil key rest)]
      by_cases hr : rest = []
      · rw [if_pos hr]
      · rw [if_neg hr, setL_setL]

theorem groupTriples_fold (d : Store Int) (model : Nat) (keys : List Nat)
    (env : EnvId) (g : Nat) (series : List Nat) (key : Nat)
    (hk : key ∈ keys) (tab : List (Nat × Int)) :
    ((rangeTriples d model keys env g series).filter
        (fun tr => decide (tr.2.1 = key))).foldl
      (fun tab tr => setL tab tr.1 tr.2.2) tab =
      series.foldl (fun tab ts =>
        setL tab (bucket_epoch ts g)
          (storeGet 0 d model (key, env) (bucket_epoch ts g))) tab := by
  induction series generalizing tab with
  | nil => rfl
  | cons ts rest ih =>
      show ((keys.map (fun k => (bucket_epoch ts g, k,
          storeGet 0 d model (k, env) (bucket_epoch ts g)))
            ++ rangeTriples d model keys env g rest).filter
          (fun tr => decide (tr.2.1 = key))).foldl
        (fun tab tr => setL tab tr.1 tr.2.2) tab = _
      rw [List.filter_append, List.foldl_append, ih, List.foldl_cons]
      have hblock : ((keys.map (fun k => (bucket_epoch ts g, k,
          storeGet 0 d model (k, env) (bucket_epoch ts g)))).filter
            (fun tr => decide (tr.2.1 = key))).foldl
          (fun tab tr => setL tab tr.1 tr.2.2) tab =
          setL tab (bucket_epoch ts g)
            (storeGet 0 d model (key, env) (bucket_epoch ts g)) := by
        rw [List.filter_map]
        have hpred : ((fun tr : Nat × Nat × Int => decide (tr.2.1 = key)) ∘
            (fun k => (bucket_epoch ts g, k,
              storeGet 0 d model (k, env) (bucket_epoch ts g)))) =
            fun k => decide (k = key) := rfl
        rw [hpred, List.foldl_map]
        have hfold := foldl_setL_all_eq
          (keys.filter (fun k => decide (k = key)))
          key (fun x hx => of_decide_eq_true (List.mem_filter.mp hx).2)
          (bucket_epoch ts g)
          (fun k => storeGet 0 d model (k, env) (bucket_epoch ts g)) tab
        rw [hfold, if_neg (List.ne_nil_of_mem
          (List.mem_filter.mpr ⟨hk, decide_eq_true rfl⟩))]
      rw [hblock]

theorem foldl_setL_fresh (series : List Nat) (ep : Nat → Nat)
    (v : Nat → Int) (tab : List (Nat × Int))
    (h1 : series.Pairwise (fun a b => ep a ≠ ep b))
    (h2 : ∀ ts ∈ series, ep ts ∉ tab.map Prod.fst) :
    series.foldl (fun tab ts => setL tab (ep ts) (v ts)) tab =
      tab ++ series.map (fun ts => (ep ts, v ts)) := by
  induction series generalizing tab with
  | nil => simp
  | cons ts rest ih =>
      have hfresh : ∀ ts2 ∈ rest,
          ep ts2 ∉ (tab ++ [(ep ts, v ts)]).map Prod.fst := by
        intro ts2 hts2
        rw [List.map_append]
        simp only [List.mem_append, List.map_cons, List.map_nil,
          List.mem_singleton]
        rintro (hmem | hmem)
        · exact h2 ts2 (List.mem_cons_of_mem ts hts2) hmem
        · exact (List.rel_of_pairwise_cons h1 hts2) hmem.symm
      rw [List.foldl_cons,
        setL_append_fresh tab (ep ts) (v ts)
          (h2 ts (List.mem_cons_self ts rest)),
        ih (tab ++ [(ep ts, v ts)]) (List.Pairwise.of_cons h1) hfresh,
        List.map_cons, List.append_assoc, List.singleton_append]

theorem lookupL_map_sortPairs (l : List (Nat × List (Nat × Int)))
    (key : Nat) :
    lookupL (l.map (fun p => (p.1, sortPairs p.2))) key =
      (lookupL l key).map sortPairs := by
  induction l with
  | nil => rfl
  | cons p rest ih =>
      simp only [List.map_cons, lookupL]
      by_cases h : p.1 = key
      · rw [if_pos h, if_pos h]
        rfl
      · rw [if_neg h, if_neg h, ih]

theorem getD_map_sortPairs (o : Option (List (Nat × Int))) :
    (o.map sortPairs).getD [] = sortPairs (o.getD []) := by
  cases o <;> rfl

/-- C2: for every requested key, `get_range` over `[start, stop)` returns
exactly one `(epoch, count)` pair per bucket epoch of the selected rollup
inside the interval (the pair list projects onto exactly the series of
bucket epochs), in strictly ascending epoch order, with each count read
from the backing store at that coordinate — default `0` for epochs that
were never written (`rangeRead` reads through `storeGet` with default 0). -/
theorem c2_range_query_completeness (t : InMemoryTSDB) (model : Nat)
    (keys : List Nat) (start stop : Nat) (rollup : Option Nat)
    (env : EnvId) (key : Nat) (hk : key ∈ keys)
    (hg : 0 < (get_optimal_rollup_series t.rollups start stop rollup).1) :
    (lookupL (get_range t model keys start stop rollup env).1 key).getD []
        = rangeRead t.data model key env
            (get_optimal_rollup_series t.rollups start stop rollup).1
            (get_optimal_rollup_series t.rollups start stop rollup).2 ∧
      ((lookupL (get_range t model keys start stop rollup env).1
          key).getD []).map Prod.fst =
        (get_optimal_rollup_series t.rollups start stop rollup).2 ∧
      List.Pairwise (fun a b : Nat × Int => a.1 < b.1)
        ((lookupL (get_range t model keys start stop rollup env).1
          key).getD []) := by
  have hpw : ((get_optimal_rollup_series t.rollups start stop
      rollup).2).Pairwise (· < ·) :=
    seriesEpochs_pairwise _ start stop
  have hbk : ∀ ts ∈ (get_optimal_rollup_series t.rollups start stop
        rollup).2,
      bucket_epoch ts
        (get_optimal_rollup_series t.rollups start stop rollup).1 = ts :=
    seriesEpochs_bucket _ start stop hg
  have hval : (lookupL (get_range t model keys start stop rollup
        env).1 key).getD []
      = rangeRead t.data model key env
          (get_optimal_rollup_series t.rollups start stop rollup).1
          (get_optimal_rollup_series t.rollups start stop rollup).2 := by
    rw [get_range_fst, lookupL_map_sortPairs, getD_map_sortPairs,
      groupFold_lookup,
      groupTriples_fold t.data model keys env _ _ key hk]
    simp only [lookupL, Option.getD_none]
    have hfold := foldl_setL_fresh
      (get_optimal_rollup_series t.rollups start stop rollup).2
      (fun ts => bucket_epoch ts
        (get_optimal_rollup_series t.rollups start stop rollup).1)
      (fun ts => storeGet 0 t.data model (key, env)
        (bucket_epoch ts
          (get_optimal_rollup_series t.rollups start stop rollup).1))
      []
      (hpw.imp_of_mem (by
        intro a b ha hb hab
        show bucket_epoch a _ ≠ bucket_epoch b _
        rw [hbk a ha, hbk b hb]
        omega))
      (by intro ts _ hmem; simp at hmem)
    rw [hfold, List.nil_append]
    have hsorted : List.Pairwise (fun a b : Nat × Int => a.1 ≤ b.1)
        (rangeRead t.data model key env
          (get_optimal_rollup_series t.rollups start stop rollup).1
          (get_optimal_rollup_series t.rollups start stop rollup).2) := by
      refine List.pairwise_map.mpr ?_
      refine hpw.imp_of_mem ?_
      intro a b ha hb hab
      show bucket_epoch a _ ≤ bucket_epoch b _
      rw [hbk a ha, hbk b hb]
      omega
    show sortPairs (rangeRead t.data model key env
        (get_optimal_rollup_series t.rollups start stop rollup).1
        (get_optimal_rollup_series t.rollups start stop rollup).2) = _
    exact List.Sorted.insertionSort_eq hsorted
  have hmapfst : (rangeRead t.data model key env
      (get_optimal_rollup_series t.rollups start stop rollup).1
      (get_optimal_rollup_series t.rollups start stop rollup).2).map
        Prod.fst =
      (get_optimal_rollup_series t.rollups start stop rollup).2 := by
    unfold rangeRead
    rw [List.map_map]
    have hcomp : (Prod.fst ∘ fun ts => (bucket_epoch ts
        (get_optimal_rollup_series t.rollups start stop rollup).1,
        storeGet 0 t.data model (key, env)
          (bucket_epoch ts
            (get_optimal_rollup_series t.rollups start stop rollup).1)))
        = fun ts => bucket_epoch ts
            (get_optimal_rollup_series t.rollups start stop rollup).1 :=
      rfl
    rw [hcomp]
    conv_rhs => rw [← List.map_id
      (get_optimal_rollup_series t.rollups start stop rollup).2]
    exact List.map_congr_left (fun a ha => hbk a ha)
  have hstrict : List.Pairwise (fun a b : Nat × Int => a.1 < b.1)
      (rangeRead t.data model key env
        (get_optimal_rollup_series t.rollups start stop rollup).1
        (get_optimal_rollup_series t.rollups start stop rollup).2) := by
    refine List.pairwise_map.mpr ?_
    refine hpw.imp_of_mem ?_
    intro a b ha hb hab
    show bucket_epoch a _ < bucket_epoch b _
    rw [hbk a ha, hbk b hb]
    exact hab
  refine ⟨hval, ?_, ?_⟩
  · rw [hval, hmapfst]
  · rw [hval]
    exact hstrict

/-- Witness for C2: schedule [(10, 5)], one increment of key 1 by 5 at
timestamp 105 under environment 3; querying keys [1, 2] over [100, 120)
selects granularity 10 and returns, per key, one pair per epoch in
{100, 110}, ascending, with 0 for unwritten epochs. -/
theorem c2_range_query_completeness_witness :
    ((1 ∈ [1, 2] ∧
      0 < (get_optimal_rollup_series
        (incr (initTSDB [(10, 5)]) 0 1 105 5 (some 3)).rollups 100 120
        none).1) ∧
    (lookupL (get_range (incr (initTSDB [(10, 5)]) 0 1 105 5 (some 3)) 0
        [1, 2] 100 120 none (some 3)).1 1).getD []
      = rangeRead (incr (initTSDB [(10, 5)]) 0 1 105 5 (some 3)).data 0 1
          (some 3)
          (get_optimal_rollup_series
            (incr (initTSDB [(10, 5)]) 0 1 105 5 (some 3)).rollups 100 120
            none).1
          (get_optimal_rollup_series
            (incr (initTSDB [(10, 5)]) 0 1 105 5 (some 3)).rollups 100 120
            none).2 ∧
      ((lookupL (get_range (incr (initTSDB [(10, 5)]) 0 1 105 5 (some 3)) 0
          [1, 2] 100 120 none (some 3)).1 1).getD []).map Prod.fst =
        (get_optimal_rollup_series
          (incr (initTSDB [(10, 5)]) 0 1 105 5 (some 3)).rollups 100 120
          none).2 ∧
      List.Pairwise (fun a b : Nat × Int => a.1 < b.1)
        ((lookupL (get_range (incr (initTSDB [(10, 5)]) 0 1 105 5 (some 3))
          0 [1, 2] 100 120 none (some 3)).1 1).getD [])) :=
  ⟨⟨by decide, by decide⟩,
    c2_range_query_completeness (incr (initTSDB [(10, 5)]) 0 1 105 5
      (some 3)) 0 [1, 2] 100 120 none (some 3) 1 (by decide) (by decide)⟩

end TSDBSpec
